import Mathlib

/-!
# Verification of the qsys_viz graph-construction and wire-routing core

Shallow embedding of `src/services/qsysConverter.ts` (type resolver and
graph builder) and `src/components/ElkRenderer.tsx` (port layout engine and
schematic router).  JavaScript strings are Lean `String`s, JS numbers are
modelled as exact rationals `ℚ`, nullable values as `Option`, and the
DOM-parsed source document as a record of attribute lists.  Mutation of the
node/port/edge arrays is modelled by explicit state passing through folds
in the same order as the source's `forEach` loops.
-/

namespace Qsys

/-! ## JavaScript string primitives

Small total models of the JavaScript string operations the source uses:
`x || dflt` on strings (empty string is falsy), template interpolation of a
possibly-`undefined` value, `String.prototype.trim`, `toLowerCase`,
`includes`, and `split('.')`. -/

/-- JS `v || dflt` for a nullable string: `null`/`undefined` and `""` are falsy. -/
def jsOr (v : Option String) (dflt : String) : String :=
  match v with
  | none => dflt
  | some s => if s = "" then dflt else s

/-- JS template interpolation of a possibly-undefined string (`undefined`
interpolates as the text `"undefined"`). -/
def jsStr : Option String → String
  | none => "undefined"
  | some s => s

/-- JS falsiness of a possibly-undefined string. -/
def jsFalsy : Option String → Bool
  | none => true
  | some s => s = ""

def isWsChar (c : Char) : Bool :=
  c = ' ' || c = '\t' || c = '\n' || c = '\r'

/-- Model of JS `String.prototype.trim` (leading/trailing whitespace removed). -/
def jsTrim (s : String) : String :=
  String.mk (((s.data.dropWhile isWsChar).reverse.dropWhile isWsChar).reverse)

/-- Model of JS `String.prototype.toLowerCase` (ASCII lowering). -/
def jsToLower (s : String) : String :=
  String.mk (s.data.map Char.toLower)

/-- Model of JS `s.includes(pat)`: `pat` occurs contiguously in `s`. -/
def containsSubstr (s pat : String) : Bool :=
  decide (pat.data <:+: s.data)

/-- Character-list worker for JS `split('.')`. -/
def splitDotAux : List Char → List String
  | [] => [""]
  | c :: cs =>
    let r := splitDotAux cs
    if c = '.' then "" :: r
    else
      match r with
      | [] => [String.mk [c]]
      | h :: t => String.mk (c :: h.data) :: t

/-- Model of JS `s.split('.')`: always returns at least one element;
`"".split('.') = [""]`, `"a.b.c".split('.') = ["a","b","c"]`. -/
def jsSplitDot (s : String) : List String :=
  splitDotAux s.data

/-- Last-write-wins lookup into an insertion-ordered association list,
modelling `Map.get` after repeated `Map.set`. -/
def lookupLast (m : List (String × String)) (k : String) : Option String :=
  (m.reverse.find? (fun e => e.1 == k)).map (·.2)

/-! ## Kernel-reducible rational arithmetic

JS numbers are modelled as exact rationals.  The standard `Rat` operations
normalize through `Nat.gcd`, which is defined by well-founded recursion and
does not reduce in the kernel, so concrete evaluation (`decide`) would get
stuck.  We therefore compute with `qAdd`/`qSub`/`qMul`/`qDiv`/... built on a
fuel-based gcd, and prove each equal to the corresponding `ℚ` operation so
that general theorems can reason with ordinary field arithmetic. -/

def gcdFuel : Nat → Nat → Nat → Nat
  | 0, _, n => n
  | _ + 1, 0, n => n
  | f + 1, m + 1, n => gcdFuel f (n % (m + 1)) (m + 1)

def myGcd (m n : Nat) : Nat := gcdFuel (m + 1) m n

theorem gcdFuel_eq_gcd : ∀ (f m n : Nat), m < f → gcdFuel f m n = Nat.gcd m n := by
  intro f
  induction f with
  | zero => intro m n h; exact absurd h (Nat.not_lt_zero m)
  | succ g ih =>
    intro m n h
    match m with
    | 0 => simp [gcdFuel, Nat.gcd]
    | m + 1 =>
      have hlt : n % (m + 1) < g := by
        have h1 : n % (m + 1) < m + 1 := Nat.mod_lt n (Nat.succ_pos m)
        omega
      calc gcdFuel (g + 1) (m + 1) n = gcdFuel g (n % (m + 1)) (m + 1) := rfl
        _ = Nat.gcd (n % (m + 1)) (m + 1) := ih _ _ hlt
        _ = Nat.gcd (m + 1) n := (Nat.gcd_succ m n).symm

theorem myGcd_eq_gcd (m n : Nat) : myGcd m n = Nat.gcd m n :=
  gcdFuel_eq_gcd (m + 1) m n (Nat.lt_succ_self m)

theorem myGcd_dvd_left (m n : Nat) : myGcd m n ∣ m := by
  rw [myGcd_eq_gcd]; exact Nat.gcd_dvd_left m n

theorem myGcd_dvd_right (m n : Nat) : myGcd m n ∣ n := by
  rw [myGcd_eq_gcd]; exact Nat.gcd_dvd_right m n

theorem qMk_den_nz (n : Int) (d : Nat) (hd : ¬ d = 0) (hn : ¬ n = 0) :
    d / myGcd n.natAbs d ≠ 0 := by
  have hg : 0 < myGcd n.natAbs d := by
    rw [myGcd_eq_gcd]
    exact Nat.gcd_pos_of_pos_right _ (Nat.pos_of_ne_zero hd)
  have hdvd := myGcd_dvd_right n.natAbs d
  intro h0
  have hle : myGcd n.natAbs d ≤ d := Nat.le_of_dvd (Nat.pos_of_ne_zero hd) hdvd
  have hpos : d / myGcd n.natAbs d > 0 := Nat.div_pos hle hg
  omega

theorem qMk_reduced (n : Int) (d : Nat) (hd : ¬ d = 0) (hn : ¬ n = 0) :
    (if n < 0 then -((n.natAbs / myGcd n.natAbs d : Nat) : Int)
     else ((n.natAbs / myGcd n.natAbs d : Nat) : Int)).natAbs.Coprime
      (d / myGcd n.natAbs d) := by
  have hg : 0 < Nat.gcd n.natAbs d :=
    Nat.gcd_pos_of_pos_right _ (Nat.pos_of_ne_zero hd)
  have habs : (if n < 0 then -((n.natAbs / myGcd n.natAbs d : Nat) : Int)
      else ((n.natAbs / myGcd n.natAbs d : Nat) : Int)).natAbs
      = n.natAbs / myGcd n.natAbs d := by
    split
    · rw [Int.natAbs_neg]; exact Int.natAbs_ofNat _
    · exact Int.natAbs_ofNat _
  rw [habs, myGcd_eq_gcd]
  exact Nat.coprime_div_gcd_div_gcd hg

/-- Construct the rational `n / d` with explicit fuel-based normalization,
so that the kernel can evaluate it. -/
def qMk (n : Int) (d : Nat) : ℚ :=
  if hd : d = 0 then 0
  else if hn : n = 0 then 0
  else
    Rat.mk'
      (if n < 0 then -((n.natAbs / myGcd n.natAbs d : Nat) : Int)
       else ((n.natAbs / myGcd n.natAbs d : Nat) : Int))
      (d / myGcd n.natAbs d)
      (qMk_den_nz n d hd hn) (qMk_reduced n d hd hn)

theorem qMk_eq (n : Int) (d : Nat) (hd : d ≠ 0) :
    qMk n d = (n : ℚ) / (d : ℚ) := by
  rw [qMk, dif_neg hd]
  by_cases hn : n = 0
  · simp [hn]
  · rw [dif_neg hn, Rat.mk'_eq_divInt, Rat.divInt_eq_div]
    have hg0 : (0 : ℚ) < (myGcd n.natAbs d : ℚ) := by
      have : 0 < Nat.gcd n.natAbs d :=
        Nat.gcd_pos_of_pos_right _ (Nat.pos_of_ne_zero hd)
      rw [myGcd_eq_gcd]
      exact_mod_cast this
    have hgne : (myGcd n.natAbs d : ℚ) ≠ 0 := ne_of_gt hg0
    have hdvd1 : myGcd n.natAbs d ∣ n.natAbs := myGcd_dvd_left _ _
    have hdvd2 : myGcd n.natAbs d ∣ d := myGcd_dvd_right _ _
    have hcast1 : ((n.natAbs / myGcd n.natAbs d : Nat) : ℚ)
        = (n.natAbs : ℚ) / (myGcd n.natAbs d : ℚ) := by
      exact_mod_cast Nat.cast_div hdvd1 hgne
    have hcast2 : ((d / myGcd n.natAbs d : Nat) : ℚ)
        = (d : ℚ) / (myGcd n.natAbs d : ℚ) := by
      exact_mod_cast Nat.cast_div hdvd2 hgne
    have hdq : (d : ℚ) ≠ 0 := Nat.cast_ne_zero.mpr hd
    by_cases hlt : n < 0
    · have h1 : (n.natAbs : Int) = -n := by omega
      have hne : ((n.natAbs : Nat) : ℚ) = -(n : ℚ) := by
        have h2 := congrArg (fun z : Int => (z : ℚ)) h1
        simpa only [Int.cast_natCast, Int.cast_neg] using h2
      rw [if_pos hlt, Int.cast_neg, Int.cast_natCast, Int.cast_natCast, hcast1, hcast2,
        hne]
      field_simp
    · have h1 : (n.natAbs : Int) = n := by omega
      have hne : ((n.natAbs : Nat) : ℚ) = (n : ℚ) := by
        have h2 := congrArg (fun z : Int => (z : ℚ)) h1
        simpa only [Int.cast_natCast, Int.cast_neg] using h2
      rw [if_neg hlt, Int.cast_natCast, Int.cast_natCast, hcast1, hcast2, hne]
      field_simp

def qAdd (a b : ℚ) : ℚ := qMk (a.num * (b.den : Int) + b.num * (a.den : Int)) (a.den * b.den)

def qSub (a b : ℚ) : ℚ := qMk (a.num * (b.den : Int) - b.num * (a.den : Int)) (a.den * b.den)

def qMul (a b : ℚ) : ℚ := qMk (a.num * b.num) (a.den * b.den)

def qDiv (a b : ℚ) : ℚ :=
  qMk (if b.num < 0 then -(a.num * (b.den : Int)) else a.num * (b.den : Int))
    (a.den * b.num.natAbs)

def qNeg (a : ℚ) : ℚ := qMk (-a.num) a.den

/-- JS `Math.max`. -/
def qMax (a b : ℚ) : ℚ := if a ≤ b then b else a

/-- JS `Math.min`. -/
def qMin (a b : ℚ) : ℚ := if a ≤ b then a else b

/-- JS `Math.abs`. -/
def qAbs (a : ℚ) : ℚ := if a < 0 then qNeg a else a

theorem num_eq_mul_den (a : ℚ) : (a.num : ℚ) = a * (a.den : ℚ) := by
  have ha : (a.den : ℚ) ≠ 0 := Nat.cast_ne_zero.mpr a.den_nz
  exact ((div_eq_iff ha).mp (Rat.num_div_den a)).symm ▸ rfl

theorem qAdd_eq (a b : ℚ) : qAdd a b = a + b := by
  have hd : a.den * b.den ≠ 0 := Nat.mul_ne_zero a.den_nz b.den_nz
  have ha : (a.den : ℚ) ≠ 0 := Nat.cast_ne_zero.mpr a.den_nz
  have hb : (b.den : ℚ) ≠ 0 := Nat.cast_ne_zero.mpr b.den_nz
  have hdq : ((a.den * b.den : Nat) : ℚ) ≠ 0 := by push_cast; exact mul_ne_zero ha hb
  rw [qAdd, qMk_eq _ _ hd, div_eq_iff hdq]
  push_cast
  rw [num_eq_mul_den a, num_eq_mul_den b]
  ring

theorem qSub_eq (a b : ℚ) : qSub a b = a - b := by
  have hd : a.den * b.den ≠ 0 := Nat.mul_ne_zero a.den_nz b.den_nz
  have ha : (a.den : ℚ) ≠ 0 := Nat.cast_ne_zero.mpr a.den_nz
  have hb : (b.den : ℚ) ≠ 0 := Nat.cast_ne_zero.mpr b.den_nz
  have hdq : ((a.den * b.den : Nat) : ℚ) ≠ 0 := by push_cast; exact mul_ne_zero ha hb
  rw [qSub, qMk_eq _ _ hd, div_eq_iff hdq]
  push_cast
  rw [num_eq_mul_den a, num_eq_mul_den b]
  ring

theorem qMul_eq (a b : ℚ) : qMul a b = a * b := by
  have hd : a.den * b.den ≠ 0 := Nat.mul_ne_zero a.den_nz b.den_nz
  have ha : (a.den : ℚ) ≠ 0 := Nat.cast_ne_zero.mpr a.den_nz
  have hb : (b.den : ℚ) ≠ 0 := Nat.cast_ne_zero.mpr b.den_nz
  have hdq : ((a.den * b.den : Nat) : ℚ) ≠ 0 := by push_cast; exact mul_ne_zero ha hb
  rw [qMul, qMk_eq _ _ hd, div_eq_iff hdq]
  push_cast
  rw [num_eq_mul_den a, num_eq_mul_den b]
  ring

theorem qNeg_eq (a : ℚ) : qNeg a = -a := by
  have ha : (a.den : ℚ) ≠ 0 := Nat.cast_ne_zero.mpr a.den_nz
  rw [qNeg, qMk_eq _ _ a.den_nz, div_eq_iff ha]
  push_cast
  rw [num_eq_mul_den a]
  ring

theorem qDiv_eq (a b : ℚ) : qDiv a b = a / b := by
  by_cases hb : b.num = 0
  · have hb0 : b = 0 := Rat.num_eq_zero.mp hb
    simp [qDiv, hb, hb0, qMk]
  · have hd : a.den * b.num.natAbs ≠ 0 :=
      Nat.mul_ne_zero a.den_nz (Int.natAbs_ne_zero.mpr hb)
    have ha : (a.den : ℚ) ≠ 0 := Nat.cast_ne_zero.mpr a.den_nz
    have hbd : (b.den : ℚ) ≠ 0 := Nat.cast_ne_zero.mpr b.den_nz
    have hbq : b ≠ 0 := fun h => hb (by rw [h]; rfl)
    have hbnq : (b.num : ℚ) ≠ 0 := Int.cast_ne_zero.mpr hb
    have hdq : ((a.den * b.num.natAbs : Nat) : ℚ) ≠ 0 := by
      exact_mod_cast Nat.cast_ne_zero.mpr hd
    rw [qDiv, qMk_eq _ _ hd]
    have key : a / b = ((a.num : ℚ) * (b.den : ℚ)) / ((a.den : ℚ) * (b.num : ℚ)) := by
      rw [div_eq_div_iff (by positivity) (mul_ne_zero ha hbnq)]
      rw [num_eq_mul_den a, num_eq_mul_den b]
      ring
    rw [key]
    by_cases hlt : b.num < 0
    · have h1 : (b.num.natAbs : Int) = -b.num := by omega
      have hne : ((b.num.natAbs : Nat) : ℚ) = -(b.num : ℚ) := by
        have h2 := congrArg (fun z : Int => (z : ℚ)) h1
        simpa only [Int.cast_natCast, Int.cast_neg] using h2
      rw [if_pos hlt, div_eq_div_iff hdq (mul_ne_zero ha hbnq)]
      push_cast [hne]
      ring
    · have h1 : (b.num.natAbs : Int) = b.num := by omega
      have hne : ((b.num.natAbs : Nat) : ℚ) = (b.num : ℚ) := by
        have h2 := congrArg (fun z : Int => (z : ℚ)) h1
        simpa only [Int.cast_natCast, Int.cast_neg] using h2
      rw [if_neg hlt, div_eq_div_iff hdq (mul_ne_zero ha hbnq)]
      push_cast [hne]
      ring

theorem qMax_eq (a b : ℚ) : qMax a b = max a b := (max_def a b).symm

theorem qMin_eq (a b : ℚ) : qMin a b = min a b := (min_def a b).symm

theorem qAbs_eq (a : ℚ) : qAbs a = |a| := by
  by_cases h : a < 0
  · rw [qAbs, if_pos h, qNeg_eq, abs_of_neg h]
  · rw [qAbs, if_neg h, abs_of_nonneg (le_of_not_lt h)]

/-! ## Type Resolver (`qsysConverter.ts` lines 6–40) -/

/-- `getKindColor`: fixed-priority case-insensitive substring classification. -/
def getKindColor (kind : String) : String :=
  let k := jsToLower kind
  if containsSubstr k "avalon_streaming" || containsSubstr k "st" then "#22c55e"
  else if containsSubstr k "avalon" || containsSubstr k "mm" then "#f59e0b"
  else if containsSubstr k "clock" then "#ef4444"
  else if containsSubstr k "reset" then "#a855f7"
  else if containsSubstr k "conduit" then "#64748b"
  else if containsSubstr k "interrupt" then "#ec4899"
  else "#475569"

/-- `normalizeType`: trim, and map absent/empty to the sentinel `"unknown"`. -/
def normalizeType (value : Option String) : String :=
  match value with
  | none => "unknown"
  | some s =>
    let trimmed := jsTrim s
    if trimmed = "" then "unknown" else trimmed

/-- `resolveConnectionType`: first-match priority resolution of the
connection's protocol label from the two endpoint interface types and the
raw connection kind. -/
def resolveConnectionType (connectionKind : Option String)
    (startInterfaceType endInterfaceType : Option String) : String :=
  let startType := normalizeType startInterfaceType
  let endType := normalizeType endInterfaceType
  if startType ≠ "unknown" ∧ endType ≠ "unknown" then
    if jsToLower startType = jsToLower endType then startType
    else startType ++ " -> " ++ endType
  else if startType ≠ "unknown" then startType
  else if endType ≠ "unknown" then endType
  else normalizeType connectionKind

/-! ### Claim-side resolution rules (for claim C1)

`claimResolve` is modelled from the claim's words, not from the source:
"known" means non-empty after trimming.  `claimResolveAmended` is the
amended rule: "known" additionally excludes the literal sentinel string
`"unknown"`, which the source's normalization conflates with absence. -/

/-- Claim C1's notion of a known endpoint type: non-empty after trimming. -/
def claimKnown (v : Option String) : Bool :=
  match v with
  | none => false
  | some s => !(jsTrim s = "")

/-- Modelled from the claim C1 wording: the five-rule priority resolution
with "known = non-empty after trimming". -/
def claimResolve (connectionKind : Option String)
    (startInterfaceType endInterfaceType : Option String) : String :=
  let st := jsTrim (startInterfaceType.getD "")
  let et := jsTrim (endInterfaceType.getD "")
  if claimKnown startInterfaceType ∧ claimKnown endInterfaceType then
    if jsToLower st = jsToLower et then st else st ++ " -> " ++ et
  else if claimKnown startInterfaceType then st
  else if claimKnown endInterfaceType then et
  else normalizeType connectionKind

/-! ## Data model

The graph model of `src/types.ts`, restricted to the fields the converter
and renderer touch.  `meta`/`properties` string maps are modelled by the
individual keys the code reads (`org.eclipse.elk.port.side`, `label`,
`interface.color`, `internalKind`, `edge.color`, `edge.type`, `kind`,
`parameters`).  Coordinates are absent (`none`) until the external layout
engine fills them in.  Nested `children` of non-root nodes are never
produced by the converter and are not modelled. -/

structure Param where
  name : String
  value : String
deriving DecidableEq, Repr

structure ElkPort where
  id : String
  width : ℚ
  height : ℚ
  x : Option ℚ := none
  y : Option ℚ := none
  side : Option String := none
  label : Option String := none
  color : Option String := none
  internalKind : Option String := none
deriving DecidableEq, Repr

structure ElkEdge where
  id : String
  sources : List String
  targets : List String
  isVector : Option Bool := none
  labels : List String := []
  edgeColor : String
  edgeType : String
deriving DecidableEq, Repr

structure ElkNode where
  id : String
  width : Option ℚ := none
  height : Option ℚ := none
  x : Option ℚ := none
  y : Option ℚ := none
  labels : List String := []
  ports : List ElkPort := []
  kind : Option String := none
  params : List Param := []
deriving DecidableEq, Repr

/-- The root node of the converter's output: its `children` and `edges`. -/
structure ElkGraph where
  children : List ElkNode
  edges : List ElkEdge
deriving DecidableEq, Repr

/-! ### The parsed source document

`DOMParser` output is modelled as the lists of `module`, `connection` and
`interface` elements in document order, each carrying its attributes as
`Option String` (`getAttribute` returns `null` for a missing attribute). -/

structure ModuleRec where
  name : Option String := none
  kind : Option String := none
  params : List (Option String × Option String) := []
deriving DecidableEq, Repr

structure ConnRec where
  start : Option String := none
  endRef : Option String := none
  kind : Option String := none
deriving DecidableEq, Repr

structure IntfRec where
  internal : Option String := none
  type : Option String := none
  dir : Option String := none
deriving DecidableEq, Repr

structure QsysDoc where
  modules : List ModuleRec := []
  connections : List ConnRec := []
  interfaces : List IntfRec := []
deriving DecidableEq, Repr

/-- An entry of the converter's `unconnectedInterfacePorts` array. -/
structure UPort where
  portId : String
  label : String
  kind : String
  color : String
  dir : String
deriving DecidableEq, Repr

/-- The converter's mutable state while processing connections and
interfaces: the module nodes (aliased by `moduleMap` and
`rootNode.children`), the accumulated edges, the `connectedPortIds` set
(as a list, membership is what matters) and `unconnectedInterfacePorts`. -/
structure ConvSt where
  nodes : List ElkNode
  edges : List ElkEdge
  connected : List String
  unconnected : List UPort
deriving DecidableEq, Repr

/-! ## Graph Builder (`qsysConverter.ts` lines 42–302) -/

/-- `moduleMap.get`: since `Map.set` overwrites, the map resolves a name to
the LAST module node inserted with that name; modelled as the greatest
index into the nodes list whose id matches. -/
def lastIdxOf : List ElkNode → String → Option Nat
  | [], _ => none
  | n :: rest, name =>
    match lastIdxOf rest name with
    | some i => some (i + 1)
    | none => if n.id = name then some 0 else none

/-- In-place mutation of the node object at index `i`. -/
def updateNode (ns : List ElkNode) (i : Nat) (f : ElkNode → ElkNode) : List ElkNode :=
  match ns[i]? with
  | some n => ns.set i (f n)
  | none => ns

/-- `if (!node.ports?.find(p => p.id === port.id)) node.ports?.push(port)`:
append the port unless one with the same id is already present. -/
def addPort (n : ElkNode) (p : ElkPort) : ElkNode :=
  if n.ports.any (fun q => q.id == p.id) then n
  else { n with ports := n.ports ++ [p] }

/-- Step 1 of `convertQsysToElk`: one `module` element to a node. -/
def mkModuleNode (m : ModuleRec) : ElkNode :=
  { id := jsOr m.name "unknown"
    width := some 360
    height := some 120
    labels := [jsOr m.name "unknown"]
    ports := []
    kind := some (jsOr m.kind "component")
    params := m.params.filterMap (fun pv =>
      match pv.1, pv.2 with
      | some pn, some v => if pn = "" ∨ v = "" then none else some ⟨pn, v⟩
      | _, _ => none) }

/-- The `interfaceTypeMap` built by the first interface pass. -/
def ityMapOf (d : QsysDoc) : List (String × String) :=
  d.interfaces.foldl (fun m intf =>
    match intf.internal with
    | none => m
    | some s => if s = "" then m else m ++ [(s, normalizeType intf.type)]) []

/-- Step 2 of `convertQsysToElk`: one `connection` element (with its
position `index` in the connections list). -/
def stepConn (ityMap : List (String × String)) (st : ConvSt) : Nat × ConnRec → ConvSt
  | (index, conn) =>
  let startStr := jsOr conn.start ""
  let endStr := jsOr conn.endRef ""
  let qsysKind := normalizeType conn.kind
  let resolvedType := resolveConnectionType conn.kind
    (lookupLast ityMap startStr) (lookupLast ityMap endStr)
  let color := getKindColor resolvedType
  let startParts := jsSplitDot startStr
  let endParts := jsSplitDot endStr
  let startMod := startParts.headD ""
  let endMod := endParts.headD ""
  if startMod = "" ∨ endMod = "" then st
  else
    match lastIdxOf st.nodes startMod, lastIdxOf st.nodes endMod with
    | some si, some ti =>
      let sourcePortId := startMod ++ "." ++ jsStr startParts[1]?
      let targetPortId := endMod ++ "." ++ jsStr endParts[1]?
      let nodes1 := updateNode st.nodes si (fun n => addPort n
        { id := sourcePortId, width := 22, height := 22,
          side := some "EAST", label := startParts[1]?,
          color := some color, internalKind := some resolvedType })
      let nodes2 := updateNode nodes1 ti (fun n => addPort n
        { id := targetPortId, width := 22, height := 22,
          side := some "WEST", label := endParts[1]?,
          color := some color, internalKind := some resolvedType })
      { nodes := nodes2
        edges := st.edges ++ [{
          id := "edge_" ++ toString index
          sources := [sourcePortId]
          targets := [targetPortId]
          isVector := some (containsSubstr (jsToLower qsysKind) "avalon"
            || containsSubstr (jsToLower resolvedType) "axi")
          labels := [resolvedType]
          edgeColor := color
          edgeType := resolvedType }]
        connected := sourcePortId :: targetPortId :: st.connected
        unconnected := st.unconnected }
    | _, _ => st

/-- Step 3 of `convertQsysToElk`: one `interface` element — create the port
if a connection did not, and record it as unconnected if no connection
marked its id. -/
def stepIntf (st : ConvSt) (intf : IntfRec) : ConvSt :=
  let internal := jsOr intf.internal ""
  let qsysKind := normalizeType intf.type
  let dir := jsOr intf.dir "end"
  let internalKind := qsysKind
  let color := getKindColor qsysKind
  let parts := jsSplitDot internal
  let modName := parts.headD ""
  let intfName := parts[1]?
  if modName = "" ∨ jsFalsy intfName then st
  else
    match lastIdxOf st.nodes modName with
    | none => st
    | some ni =>
      let portId := internal
      let nodes1 := updateNode st.nodes ni (fun n => addPort n
        { id := portId, width := 22, height := 22,
          side := some (if dir = "start" then "EAST" else "WEST"),
          label := intfName, color := some color,
          internalKind := some internalKind })
      let unconnected1 :=
        if portId ∈ st.connected then st.unconnected
        else st.unconnected ++ [{
          portId := portId, label := jsStr intfName,
          kind := internalKind, color := color, dir := dir }]
      { st with nodes := nodes1, unconnected := unconnected1 }

/-- `makeExternalNode` (`qsysConverter.ts` lines 217–230). -/
def makeExternalNode (id label : String) (portCount : Nat) : ElkNode :=
  { id := id
    width := some 300
    height := some (qMax 150 (qAdd (qMul (portCount : ℚ) 30) 80))
    labels := [label]
    ports := []
    kind := some "external" }

def mkExtInPort (u : UPort) : ElkPort :=
  { id := "__external_input__." ++ u.portId, width := 18, height := 18,
    side := some "EAST", label := some u.label,
    color := some u.color, internalKind := some u.kind }

def mkExtOutPort (u : UPort) : ElkPort :=
  { id := "__external_output__." ++ u.portId, width := 18, height := 18,
    side := some "WEST", label := some u.label,
    color := some u.color, internalKind := some u.kind }

def mkExtInEdge (iu : Nat × UPort) : ElkEdge :=
  { id := "ext_in_edge_" ++ toString iu.1
    sources := ["__external_input__." ++ iu.2.portId]
    targets := [iu.2.portId]
    labels := ["external"]
    edgeColor := iu.2.color
    edgeType := iu.2.kind }

def mkExtOutEdge (iu : Nat × UPort) : ElkEdge :=
  { id := "ext_out_edge_" ++ toString iu.1
    sources := [iu.2.portId]
    targets := ["__external_output__." ++ iu.2.portId]
    labels := ["external"]
    edgeColor := iu.2.color
    edgeType := iu.2.kind }

/-- The two disjoint groups of unconnected interfaces. -/
def aggInputs (st : ConvSt) : List UPort :=
  st.unconnected.filter (fun u => u.dir ≠ "start")

def aggOutputs (st : ConvSt) : List UPort :=
  st.unconnected.filter (fun u => u.dir = "start")

/-- Steps 4–5 of `convertQsysToElk`: the synthetic external aggregator
nodes (input then output, each only when its group is non-empty) and the
synthetic "external" edges, in push order. -/
def buildAggregates (st : ConvSt) : List ElkNode × List ElkEdge :=
  if st.unconnected.isEmpty then ([], [])
  else
    let externalInputs := aggInputs st
    let externalOutputs := aggOutputs st
    let inNodes : List ElkNode :=
      if externalInputs.length > 0 then
        [{ makeExternalNode "__external_input__" "External Inputs" externalInputs.length
            with ports := externalInputs.map mkExtInPort }]
      else []
    let outNodes : List ElkNode :=
      if externalOutputs.length > 0 then
        [{ makeExternalNode "__external_output__" "External Outputs" externalOutputs.length
            with ports := externalOutputs.map mkExtOutPort }]
      else []
    let inEdges := externalInputs.enum.map mkExtInEdge
    let outEdges := externalOutputs.enum.map mkExtOutEdge
    (inNodes ++ outNodes, inEdges ++ outEdges)

/-- Step 6 of `convertQsysToElk`: the final height pass over every child
of the root (aggregator nodes included). -/
def finalizeHeights (ns : List ElkNode) : List ElkNode :=
  ns.map (fun n => { n with
    height := some (qMax 150 (qAdd (qMul (n.ports.length : ℚ) 45) 90)) })

/-- State after step 1 (modules processed, nothing else). -/
def st0 (d : QsysDoc) : ConvSt :=
  { nodes := d.modules.map mkModuleNode, edges := [], connected := [], unconnected := [] }

/-- State after step 2 (all connections processed in document order). -/
def stConn (d : QsysDoc) : ConvSt :=
  d.connections.enum.foldl (stepConn (ityMapOf d)) (st0 d)

/-- State after step 3 (all interfaces processed). -/
def stIntf (d : QsysDoc) : ConvSt :=
  d.interfaces.foldl stepIntf (stConn d)

def unconnectedOf (d : QsysDoc) : List UPort := (stIntf d).unconnected

/-- `convertQsysToElk`: the full pipeline. -/
def convertQsysToElk (d : QsysDoc) : ElkGraph :=
  let st := stIntf d
  let agg := buildAggregates st
  { children := finalizeHeights (st.nodes ++ agg.1)
    edges := st.edges ++ agg.2 }

/-! ## Port Layout Engine (`ElkRenderer.tsx` lines 149–206)

`portPositions` computes, for every port of every top-level node, the
absolute center `{x, y}` of the port together with its side and size, into
a `Map` keyed by port id (later entries overwrite earlier ones). -/

structure PortPos where
  x : ℚ
  y : ℚ
  side : String
  w : ℚ
  h : ℚ
deriving DecidableEq, Repr

/-- `Object.entries(portsBySide)` iteration order: the object literal's
insertion order. -/
def sideNames : List String := ["WEST", "EAST", "NORTH", "SOUTH"]

/-- The side under which a port is grouped:
`port.properties?.['org.eclipse.elk.port.side'] || 'EAST'`. -/
def portSideOf (p : ElkPort) : String := jsOr p.side "EAST"

/-- The ports of `node` grouped under `side`, in insertion order. -/
def sidePorts (node : ElkNode) (side : String) : List ElkPort :=
  node.ports.filter (fun p => portSideOf p == side)

/-- The clamped top-left corner of the port at (0-based) position `idx`
among the `count` ports of its side (`ElkRenderer.tsx` lines 166–193). -/
def portCorner (nodeW nodeH pw ph : ℚ) (side : String) (count idx : Nat) : ℚ × ℚ :=
  let inset : ℚ := 2
  let a : ℚ × ℚ :=
    if side = "WEST" then
      let portSpacing := if count > 1 then qDiv (qSub nodeH 20) (qAdd (count : ℚ) 1)
        else qDiv nodeH 2
      (inset, qSub (qMul (qAdd (idx : ℚ) 1) portSpacing) (qDiv ph 2))
    else if side = "EAST" then
      let portSpacing := if count > 1 then qDiv (qSub nodeH 20) (qAdd (count : ℚ) 1)
        else qDiv nodeH 2
      (qMax inset (qSub (qSub nodeW pw) inset),
        qSub (qMul (qAdd (idx : ℚ) 1) portSpacing) (qDiv ph 2))
    else if side = "NORTH" then
      let portSpacing := if count > 1 then qDiv (qSub nodeW 20) (qAdd (count : ℚ) 1)
        else qDiv nodeW 2
      (qSub (qMul (qAdd (idx : ℚ) 1) portSpacing) (qDiv pw 2), inset)
    else if side = "SOUTH" then
      let portSpacing := if count > 1 then qDiv (qSub nodeW 20) (qAdd (count : ℚ) 1)
        else qDiv nodeW 2
      (qSub (qMul (qAdd (idx : ℚ) 1) portSpacing) (qDiv pw 2),
        qMax inset (qSub (qSub nodeH ph) inset))
    else (0, 0)
  (qMax inset (qMin a.1 (qSub (qSub nodeW pw) inset)),
   qMax inset (qMin a.2 (qSub (qSub nodeH ph) inset)))

/-- One `positions.set` entry: the port's id mapped to its absolute center
(node origin plus clamped corner plus half the port size), side and size. -/
def mkPortEntry (node : ElkNode) (side : String) (ip : Nat × ElkPort) : String × PortPos :=
  let c := portCorner (node.width.getD 0) (node.height.getD 0)
    ip.2.width ip.2.height side (sidePorts node side).length ip.1
  (ip.2.id,
    { x := qAdd (qAdd (node.x.getD 0) c.1) (qDiv ip.2.width 2)
      y := qAdd (qAdd (node.y.getD 0) c.2) (qDiv ip.2.height 2)
      side := side, w := ip.2.width, h := ip.2.height })

/-- The `positions.set` entries contributed by one top-level node, in
iteration order. -/
def nodePortEntries (node : ElkNode) : List (String × PortPos) :=
  sideNames.flatMap (fun side =>
    (sidePorts node side).enum.map (mkPortEntry node side))

/-- All `positions.set` entries of the `portPositions` memo, in insertion
order over `graph.children`. -/
def portPositions (g : ElkGraph) : List (String × PortPos) :=
  g.children.flatMap nodePortEntries

/-- `portPositions.get(pid)`: last write wins. -/
def lookupPos (g : ElkGraph) (pid : String) : Option PortPos :=
  ((portPositions g).reverse.find? (fun e => e.1 == pid)).map (·.2)

/-! ## Port rendering (`ElkRenderer.tsx` lines 254–316)

`renderPort` draws the port rectangle at `(adjustedX, adjustedY)` inside
the group translated by the node origin; the adjusted corner is re-derived
from the shared `portPositions` entry when one exists, else falls back to
the port's own layout coordinates. -/

/-- The node-relative top-left corner at which the port rectangle is drawn. -/
def renderPortTopLeft (g : ElkGraph) (node : ElkNode) (p : ElkPort) : ℚ × ℚ :=
  match lookupPos g p.id with
  | some pos =>
    (qSub (qSub pos.x (node.x.getD 0)) (qDiv p.width 2),
     qSub (qSub pos.y (node.y.getD 0)) (qDiv p.height 2))
  | none => (p.x.getD 0, p.y.getD 0)

/-- The absolute center of the drawn port rectangle (node translate plus
relative corner plus half the port size). -/
def renderPortCenterAbs (g : ElkGraph) (node : ElkNode) (p : ElkPort) : ℚ × ℚ :=
  (qAdd (qAdd (node.x.getD 0) (renderPortTopLeft g node p).1) (qDiv p.width 2),
   qAdd (qAdd (node.y.getD 0) (renderPortTopLeft g node p).2) (qDiv p.height 2))

/-! ## Schematic Router (`ElkRenderer.tsx` lines 410–517) -/

structure Anchor where
  x : ℚ
  y : ℚ
  side : String
deriving DecidableEq, Repr

/-- `getAnchor` over the shared `portPositions` entry. -/
def routerAnchor (g : ElkGraph) (pid : String) : Option Anchor :=
  (lookupPos g pid).map (fun pos => { x := pos.x, y := pos.y, side := pos.side })

/-- `createSchematicPath` (`ElkRenderer.tsx` lines 431–517): the orthogonal
polyline, modelled as its vertex sequence (each `L x y` append is one
vertex), plus the pushed junction points in push order. -/
def createSchematicPath (hasFanOut : Bool) (edgeIndex : Nat) (channelOffset : ℚ)
    (src tgt : Anchor) : List (ℚ × ℚ) × List (ℚ × ℚ) :=
  let s1 : ℚ × ℚ :=
    if src.side = "EAST" then (qAdd src.x 40, src.y)
    else if src.side = "WEST" then (qSub src.x 40, src.y)
    else if src.side = "NORTH" then (src.x, qSub src.y 40)
    else if src.side = "SOUTH" then (src.x, qAdd src.y 40)
    else (src.x, src.y)
  let t1 : ℚ × ℚ :=
    if tgt.side = "EAST" then (qAdd tgt.x 40, tgt.y)
    else if tgt.side = "WEST" then (qSub tgt.x 40, tgt.y)
    else if tgt.side = "NORTH" then (tgt.x, qSub tgt.y 40)
    else if tgt.side = "SOUTH" then (tgt.x, qAdd tgt.y 40)
    else (tgt.x, tgt.y)
  let sx := s1.1
  let sy := s1.2
  let tx := t1.1
  let ty := t1.2
  let j0 : List (ℚ × ℚ) := if hasFanOut && edgeIndex == 0 then [(sx, sy)] else []
  let dx := qSub tx sx
  let dy := qSub ty sy
  let branch : List (ℚ × ℚ) × List (ℚ × ℚ) :=
    if src.side = "EAST" ∧ tgt.side = "WEST" then
      if dx > 0 then
        let midX := qAdd (qAdd sx (qDiv dx 2)) channelOffset
        ([(midX, sy), (midX, ty)], if hasFanOut then [(midX, sy)] else [])
      else
        let loopOffset := qAdd 60 channelOffset
        let midY := qDiv (qAdd sy ty) 2
        ([(qAdd sx loopOffset, sy), (qAdd sx loopOffset, midY),
          (qSub tx loopOffset, midY), (qSub tx loopOffset, ty)], [])
    else if src.side = "WEST" ∧ tgt.side = "EAST" then
      let midX := qSub (qAdd sx (qDiv dx 2)) channelOffset
      ([(midX, sy), (midX, ty)], [])
    else if src.side = "SOUTH" ∧ tgt.side = "NORTH" then
      let midY := qAdd (qAdd sy (qDiv dy 2)) channelOffset
      ([(sx, midY), (tx, midY)], [])
    else if src.side = "NORTH" ∧ tgt.side = "SOUTH" then
      let midY := qSub (qAdd sy (qDiv dy 2)) channelOffset
      ([(sx, midY), (tx, midY)], [])
    else
      if qAbs dx > qAbs dy then
        let midX := qAdd (qAdd sx (qDiv dx 2)) channelOffset
        ([(midX, sy), (midX, ty)], [])
      else
        let midY := qAdd (qAdd sy (qDiv dy 2)) channelOffset
        ([(sx, midY), (tx, midY)], [])
  ([(src.x, src.y), (sx, sy)] ++ branch.1 ++ [(tx, ty), (tgt.x, tgt.y)],
   j0 ++ branch.2)

/-- `wireChannels` (`ElkRenderer.tsx` lines 222–237): rotating channel
offsets `0, 15, 30, 45` assigned in edge order to the edges whose two
endpoint anchors resolve. -/
def wireChannels (g : ElkGraph) : List (String × ℚ) :=
  (g.edges.foldl (fun (acc : List (String × ℚ) × Int) e =>
    match e.sources.head?.bind (lookupPos g), e.targets.head?.bind (lookupPos g) with
    | some _, some _ => (acc.1 ++ [(e.id, (acc.2 : ℚ))], (acc.2 + 15) % 60)
    | _, _ => acc) ([], 0)).1

/-- `wireChannels.get(edge.id)` (last write wins, as for any `Map`). -/
def lookupChannel (g : ElkGraph) (eid : String) : Option ℚ :=
  ((wireChannels g).reverse.find? (fun e => e.1 == eid)).map (·.2)

/-- `renderEdge` (`ElkRenderer.tsx` lines 410–517) up to the routed
geometry: `none` when either endpoint anchor is missing (the fallback
branch that draws the external layout sections instead), otherwise the
schematic path and junctions, computed with the edge's fan-out group data
and channel offset. -/
def routeEdge (g : ElkGraph) (e : ElkEdge) : Option (List (ℚ × ℚ) × List (ℚ × ℚ)) :=
  match e.sources.head?.bind (lookupPos g), e.targets.head?.bind (lookupPos g) with
  | some sp, some tp =>
    let siblingEdges := g.edges.filter (fun e2 => e2.sources.head? == e.sources.head?)
    let uniqueTargets := (siblingEdges.map (fun e2 => e2.targets.head?)).dedup
    let hasFanOut := uniqueTargets.length > 1
    let edgeIndex := siblingEdges.findIdx (fun e2 => e2 == e)
    let channelOffset := (lookupChannel g e.id).getD 0
    some (createSchematicPath hasFanOut edgeIndex channelOffset
      { x := sp.x, y := sp.y, side := sp.side }
      { x := tp.x, y := tp.y, side := tp.side })
  | _, _ => none

/-- Amended notion of a known endpoint type: non-empty after trimming and
not the literal sentinel string `"unknown"`. -/
def claimKnownAmended (v : Option String) : Bool :=
  match v with
  | none => false
  | some s => !(jsTrim s = "") && !(jsTrim s = "unknown")

/-- The amended claim C1 rules, with `claimKnownAmended` in place of
`claimKnown`. -/
def claimResolveAmended (connectionKind : Option String)
    (startInterfaceType endInterfaceType : Option String) : String :=
  let st := jsTrim (startInterfaceType.getD "")
  let et := jsTrim (endInterfaceType.getD "")
  if claimKnownAmended startInterfaceType ∧ claimKnownAmended endInterfaceType then
    if jsToLower st = jsToLower et then st else st ++ " -> " ++ et
  else if claimKnownAmended startInterfaceType then st
  else if claimKnownAmended endInterfaceType then et
  else normalizeType connectionKind

/-! ### Claim-side port layout (for claim C4) -/

/-- Clamp `v` into `[lo, hi]` (the source applies the upper bound first:
`max lo (min v hi)`). -/
def clampTo (lo hi v : ℚ) : ℚ := max lo (min v hi)

/-- Modelled from the claim C4 wording: the center of the i-th port
(1-indexed) along the side's axis — the side's midpoint for a single port,
else `i * ((D - 20) / (N + 1))`. -/
def specPortCenterAlong (D : ℚ) (N i1 : Nat) : ℚ :=
  if N = 1 then D / 2 else (i1 : ℚ) * ((D - 20) / ((N : ℚ) + 1))

/-- Modelled from the claim C4 wording: the pre-clamp top-left corner given
by the along-axis center and the 2-unit inset from the node edge on the
other axis, clamped into `[2, dimension - portSize - 2]` on both axes. -/
def specPortCorner (nodeW nodeH pw ph : ℚ) (side : String) (N i1 : Nat) : ℚ × ℚ :=
  if side = "WEST" then
    (clampTo 2 (nodeW - pw - 2) 2,
     clampTo 2 (nodeH - ph - 2) (specPortCenterAlong nodeH N i1 - ph / 2))
  else if side = "EAST" then
    (clampTo 2 (nodeW - pw - 2) (nodeW - pw - 2),
     clampTo 2 (nodeH - ph - 2) (specPortCenterAlong nodeH N i1 - ph / 2))
  else if side = "NORTH" then
    (clampTo 2 (nodeW - pw - 2) (specPortCenterAlong nodeW N i1 - pw / 2),
     clampTo 2 (nodeH - ph - 2) 2)
  else
    (clampTo 2 (nodeW - pw - 2) (specPortCenterAlong nodeW N i1 - pw / 2),
     clampTo 2 (nodeH - ph - 2) (nodeH - ph - 2))

/-! ## Helper lemmas -/

theorem collapse_max_min (v : ℚ) : min (max 2 v) v = v :=
  min_eq_right (le_max_right _ _)

theorem claimKnownAmended_iff (v : Option String) :
    claimKnownAmended v = true ↔
      (∃ s, v = some s ∧ jsTrim s ≠ "" ∧ jsTrim s ≠ "unknown") := by
  cases v with
  | none => simp [claimKnownAmended]
  | some s =>
    simp only [claimKnownAmended, Bool.and_eq_true, Bool.not_eq_true', decide_eq_false_iff_not]
    constructor
    · rintro ⟨h1, h2⟩; exact ⟨s, rfl, h1, h2⟩
    · rintro ⟨t, ht, h1, h2⟩
      cases ht
      exact ⟨h1, h2⟩

theorem normalizeType_of_unknown (v : Option String) (h : claimKnownAmended v = false) :
    normalizeType v = "unknown" := by
  cases v with
  | none => rfl
  | some s =>
    simp only [claimKnownAmended, Bool.and_eq_false_iff, Bool.not_eq_false',
      decide_eq_true_iff] at h
    rcases h with h | h
    · simp [normalizeType, h]
    · simp only [normalizeType]
      by_cases h0 : jsTrim s = ""
      · simp [h0]
      · simp [h0, h]

theorem normalizeType_of_known (v : Option String) (h : claimKnownAmended v = true) :
    normalizeType v = jsTrim (v.getD "") ∧ normalizeType v ≠ "unknown" := by
  rcases (claimKnownAmended_iff v).mp h with ⟨s, hv, h1, h2⟩
  subst hv
  simp only [normalizeType, Option.getD_some]
  rw [if_neg h1]
  exact ⟨rfl, h2⟩

/-! ## Claim theorems -/

/-- **C1** (corrected), counterexample: the claim declares an endpoint type
"known" exactly when it is non-empty after trimming, so for the connection
kind `"clock"` with start interface type the literal string `"unknown"` and
no end type, rule 3 of the claim yields `"unknown"`; the code instead
conflates the literal `"unknown"` with the absent sentinel and falls
through to rule 5, yielding `"clock"`. -/
theorem c1_counterexample :
    resolveConnectionType (some "clock") (some "unknown") none = "clock"
    ∧ claimResolve (some "clock") (some "unknown") none = "unknown"
    ∧ resolveConnectionType (some "clock") (some "unknown") none
      ≠ claimResolve (some "clock") (some "unknown") none := by
  refine ⟨by decide, by decide, by decide⟩

/-- **C1** (corrected), amended claim: the first-match priority rules hold
as stated once "known" is amended to mean "non-empty after trimming and not
the literal string `unknown`" — for every raw connection kind and pair of
optional endpoint types, the resolver agrees with the amended five-rule
specification. -/
theorem c1_resolution_priority_amended (k s e : Option String) :
    resolveConnectionType k s e = claimResolveAmended k s e := by
  unfold resolveConnectionType claimResolveAmended
  cases hs : claimKnownAmended s <;> cases he : claimKnownAmended e
  · rw [normalizeType_of_unknown s hs, normalizeType_of_unknown e he]
    simp [hs, he]
  · obtain ⟨he1, he2⟩ := normalizeType_of_known e he
    rw [normalizeType_of_unknown s hs, he1]
    have he3 : jsTrim (e.getD "") ≠ "unknown" := he1 ▸ he2
    simp [hs, he, he3]
  · obtain ⟨hs1, hs2⟩ := normalizeType_of_known s hs
    rw [normalizeType_of_unknown e he, hs1]
    have hs3 : jsTrim (s.getD "") ≠ "unknown" := hs1 ▸ hs2
    simp [hs, he, hs3]
  · obtain ⟨hs1, hs2⟩ := normalizeType_of_known s hs
    obtain ⟨he1, he2⟩ := normalizeType_of_known e he
    rw [hs1, he1]
    have hs3 : jsTrim (s.getD "") ≠ "unknown" := hs1 ▸ hs2
    have he3 : jsTrim (e.getD "") ≠ "unknown" := he1 ▸ he2
    simp [hs, he, hs3, he3]

set_option maxHeartbeats 1000000 in
/-- **C4** (confirmed): for a node side holding `count` ports, the
0-based `idx`-th port's clamped top-left corner computed by the Port Layout
Engine equals the claim's formula — center along the side's axis at
`(idx+1) * ((D - 20) / (count + 1))` (midpoint `D/2` when `count = 1`),
2-unit inset on the other axis, clamped into `[2, dim - portSize - 2]`. -/
theorem c4_port_layout_formula (w h pw ph : ℚ) (side : String) (count idx : Nat)
    (hidx : idx < count) (hside : side ∈ sideNames) :
    portCorner w h pw ph side count idx
      = specPortCorner w h pw ph side count (idx + 1) := by
  fin_cases hside <;>
  · by_cases hc : count = 1
    · subst hc
      have h0 : idx = 0 := by omega
      subst h0
      simp [portCorner, specPortCorner, specPortCenterAlong, clampTo,
        qAdd_eq, qSub_eq, qMul_eq, qDiv_eq, qMax_eq, qMin_eq,
        apply_ite Prod.fst, apply_ite Prod.snd, collapse_max_min, min_self,
        Prod.mk.injEq]
    · have hgt : 1 < count := by omega
      simp [portCorner, specPortCorner, specPortCenterAlong, clampTo,
        qAdd_eq, qSub_eq, qMul_eq, qDiv_eq, qMax_eq, qMin_eq,
        apply_ite Prod.fst, apply_ite Prod.snd, collapse_max_min, min_self,
        Prod.mk.injEq, hc, hgt]

/-- Witness for C4 at a concrete input: node 360×240, port 22×22, EAST
side with 3 ports, middle port. -/
theorem c4_witness :
    (1 : Nat) < 3 ∧ ("EAST" : String) ∈ sideNames
    ∧ portCorner 360 240 22 22 "EAST" 3 1 = specPortCorner 360 240 22 22 "EAST" 3 2 :=
  ⟨by decide, by decide, c4_port_layout_formula 360 240 22 22 "EAST" 3 1 (by decide) (by decide)⟩

/-- **C5** (confirmed): schematic routing of EAST→WEST and WEST→EAST
anchor pairs.  Each anchor first gets a 40-unit stub outward; when the
target stub lies strictly right of the source stub the path is a single
vertical jog at `sx + (tx - sx)/2 + channel`; otherwise the path loops
around with offset `60 + channel` through the vertical midpoint
`(sy + ty)/2`; WEST→EAST mirrors the direct case with the channel offset
subtracted. -/
theorem c5_schematic_routing (src tgt : Anchor) (fan : Bool) (idx : Nat) (c : ℚ) :
    (src.side = "EAST" → tgt.side = "WEST" → tgt.x - 40 > src.x + 40 →
      (createSchematicPath fan idx c src tgt).1
        = [(src.x, src.y), (src.x + 40, src.y),
           (src.x + 40 + (tgt.x - 40 - (src.x + 40)) / 2 + c, src.y),
           (src.x + 40 + (tgt.x - 40 - (src.x + 40)) / 2 + c, tgt.y),
           (tgt.x - 40, tgt.y), (tgt.x, tgt.y)])
    ∧ (src.side = "EAST" → tgt.side = "WEST" → ¬(tgt.x - 40 > src.x + 40) →
      (createSchematicPath fan idx c src tgt).1
        = [(src.x, src.y), (src.x + 40, src.y),
           (src.x + 40 + (60 + c), src.y),
           (src.x + 40 + (60 + c), (src.y + tgt.y) / 2),
           (tgt.x - 40 - (60 + c), (src.y + tgt.y) / 2),
           (tgt.x - 40 - (60 + c), tgt.y),
           (tgt.x - 40, tgt.y), (tgt.x, tgt.y)])
    ∧ (src.side = "WEST" → tgt.side = "EAST" →
      (createSchematicPath fan idx c src tgt).1
        = [(src.x, src.y), (src.x - 40, src.y),
           (src.x - 40 + (tgt.x + 40 - (src.x - 40)) / 2 - c, src.y),
           (src.x - 40 + (tgt.x + 40 - (src.x - 40)) / 2 - c, tgt.y),
           (tgt.x + 40, tgt.y), (tgt.x, tgt.y)]) := by
  refine ⟨fun h1 h2 h3 => ?_, fun h1 h2 h3 => ?_, fun h1 h2 => ?_⟩
  · have hp : tgt.x - 40 - (src.x + 40) > 0 := by linarith
    simp [createSchematicPath, h1, h2, qAdd_eq, qSub_eq, qDiv_eq, hp]
  · have hp : ¬(tgt.x - 40 - (src.x + 40) > 0) := by
      intro hx; exact h3 (by linarith)
    simp [createSchematicPath, h1, h2, qAdd_eq, qSub_eq, qDiv_eq, hp]
  · simp [createSchematicPath, h1, h2, qAdd_eq, qSub_eq, qDiv_eq]

/-- Witness for C5 at a concrete input: source anchor (0,0) EAST, target
anchor (200,50) WEST, channel 15 — the direct single-jog case. -/
theorem c5_witness :
    (createSchematicPath false 3 15 { x := 0, y := 0, side := "EAST" }
        { x := 200, y := 50, side := "WEST" }).1
      = [(0, 0), (40, 0), (115, 0), (115, 50), (160, 50), (200, 50)] := by
  have h := (c5_schematic_routing { x := 0, y := 0, side := "EAST" }
    { x := 200, y := 50, side := "WEST" } false 3 15).1 rfl rfl (by norm_num)
  rw [h]
  norm_num

/-- **C6** (corrected), amended claim: the router marks a junction at the
shared exit stub point only for the fan-out group's FIRST edge
(`edgeIndex = 0`); an additional junction at the edge's own jog point is
marked for every fan-out edge, but only in the direct EAST→WEST case; the
loop-around and WEST→EAST cases add no jog junction.  Later edges of the
group do not receive the stub junction. -/
theorem c6_junction_amended (src tgt : Anchor) (fan : Bool) (idx : Nat) (c : ℚ) :
    (src.side = "EAST" → tgt.side = "WEST" → tgt.x - 40 > src.x + 40 →
      (createSchematicPath fan idx c src tgt).2
        = (if fan && idx == 0 then [(src.x + 40, src.y)] else [])
          ++ (if fan then [(src.x + 40 + (tgt.x - 40 - (src.x + 40)) / 2 + c, src.y)]
              else []))
    ∧ (src.side = "EAST" → tgt.side = "WEST" → ¬(tgt.x - 40 > src.x + 40) →
      (createSchematicPath fan idx c src tgt).2
        = (if fan && idx == 0 then [(src.x + 40, src.y)] else []))
    ∧ (src.side = "WEST" → tgt.side = "EAST" →
      (createSchematicPath fan idx c src tgt).2
        = (if fan && idx == 0 then [(src.x - 40, src.y)] else [])) := by
  refine ⟨fun h1 h2 h3 => ?_, fun h1 h2 h3 => ?_, fun h1 h2 => ?_⟩
  · have hp : tgt.x - 40 - (src.x + 40) > 0 := by linarith
    simp [createSchematicPath, h1, h2, qAdd_eq, qSub_eq, qDiv_eq, hp]
  · have hp : ¬(tgt.x - 40 - (src.x + 40) > 0) := by
      intro hx; exact h3 (by linarith)
    simp [createSchematicPath, h1, h2, qAdd_eq, qSub_eq, qDiv_eq, hp]
  · simp [createSchematicPath, h1, h2, qAdd_eq, qSub_eq, qDiv_eq]

/-- Witness for C6's amended claim: fan-out, first edge, channel 0 —
junctions at the stub (40,0) and at the jog (100,0). -/
theorem c6_witness :
    (createSchematicPath true 0 0 { x := 0, y := 0, side := "EAST" }
        { x := 200, y := 50, side := "WEST" }).2
      = [(40, 0), (100, 0)] := by
  have h := (c6_junction_amended { x := 0, y := 0, side := "EAST" }
    { x := 200, y := 50, side := "WEST" } true 0 0).1 rfl rfl (by norm_num)
  rw [h]
  norm_num

/-! ### Concrete fan-out scenario for the C6 counterexample: one EAST
source port `a.p` with edges to two distinct WEST target ports `b.q`,
`c.r` (scenario E of the spec). -/

def c6nodeA : ElkNode :=
  { id := "A", width := some 100, height := some 100, x := some 0, y := some 0
    ports := [{ id := "a.p", width := 10, height := 10, side := some "EAST" }] }

def c6nodeB : ElkNode :=
  { id := "B", width := some 100, height := some 100, x := some 300, y := some 0
    ports := [{ id := "b.q", width := 10, height := 10, side := some "WEST" }] }

def c6nodeC : ElkNode :=
  { id := "C", width := some 100, height := some 100, x := some 300, y := some 200
    ports := [{ id := "c.r", width := 10, height := 10, side := some "WEST" }] }

def c6edge1 : ElkEdge :=
  { id := "e1", sources := ["a.p"], targets := ["b.q"]
    edgeColor := "#475569", edgeType := "conduit" }

def c6edge2 : ElkEdge :=
  { id := "e2", sources := ["a.p"], targets := ["c.r"]
    edgeColor := "#475569", edgeType := "conduit" }

def c6graph : ElkGraph :=
  { children := [c6nodeA, c6nodeB, c6nodeC], edges := [c6edge1, c6edge2] }

/-- **C6** (corrected), counterexample: in the two-edge fan-out scenario
the claim asserts BOTH edges receive a junction marker at the shared exit
stub point (133, 50).  The router gives the first edge junctions
`[(133,50), (200,50)]` but the second edge only `[(215,50)]` — its own jog
point, offset by its channel — so the second edge does NOT receive the
shared stub junction. -/
theorem c6_counterexample :
    routerAnchor c6graph "a.p" = some { x := 93, y := 50, side := "EAST" }
    ∧ c6edge1.sources = ["a.p"] ∧ c6edge2.sources = ["a.p"]
    ∧ c6edge1.targets = ["b.q"] ∧ c6edge2.targets = ["c.r"]
    ∧ routeEdge c6graph c6edge1
      = some ([(93, 50), (133, 50), (200, 50), (200, 50), (267, 50), (307, 50)],
              [(133, 50), (200, 50)])
    ∧ routeEdge c6graph c6edge2
      = some ([(93, 50), (133, 50), (215, 50), (215, 250), (267, 250), (307, 250)],
              [(215, 50)])
    ∧ ((133 : ℚ), (50 : ℚ)) ∈ [((133 : ℚ), (50 : ℚ)), (200, 50)]
    ∧ ((133 : ℚ), (50 : ℚ)) ∉ [((215 : ℚ), (50 : ℚ))] := by
  refine ⟨by decide, by decide, by decide, by decide, by decide, by decide, by decide,
    by decide, by decide⟩

/-! ### Lookup lemmas for the shared port-position map -/

theorem keys_nodePortEntries (node : ElkNode) :
    (nodePortEntries node).map Prod.fst
      = sideNames.flatMap (fun s => (sidePorts node s).map (·.id)) := by
  simp only [nodePortEntries, List.map_flatMap, List.map_map]
  congr 1
  funext side
  have h1 : (Prod.fst ∘ mkPortEntry node side)
      = (fun q : ElkPort => q.id) ∘ Prod.snd := rfl
  rw [h1, ← List.map_map, List.enum_map_snd]

theorem mem_keys_portPositions (g : ElkGraph) (node : ElkNode) (p : ElkPort)
    (hn : node ∈ g.children) (hp : p ∈ node.ports) (hs : portSideOf p ∈ sideNames) :
    p.id ∈ (portPositions g).map Prod.fst := by
  have hmem : p ∈ sidePorts node (portSideOf p) := by
    rw [sidePorts, List.mem_filter]
    exact ⟨hp, by simp⟩
  have hkey : p.id ∈ (nodePortEntries node).map Prod.fst := by
    rw [keys_nodePortEntries]
    rw [List.mem_flatMap]
    exact ⟨portSideOf p, hs, List.mem_map_of_mem _ hmem⟩
  rw [portPositions, List.map_flatMap, List.mem_flatMap]
  exact ⟨node, hn, hkey⟩

theorem lookupPos_isSome_of_key (g : ElkGraph) (pid : String)
    (h : pid ∈ (portPositions g).map Prod.fst) :
    ∃ pos, lookupPos g pid = some pos := by
  obtain ⟨e, he, hid⟩ := List.mem_map.mp h
  have he' : e ∈ (portPositions g).reverse := List.mem_reverse.mpr he
  rcases hfind : (portPositions g).reverse.find? (fun x => x.1 == pid) with _ | pos
  · exfalso
    have := List.find?_eq_none.mp hfind e he'
    simp [hid] at this
  · exact ⟨pos.2, by rw [lookupPos, hfind]; rfl⟩

/-- **C2** (confirmed): for every port of a top-level node (whose side
string, after the `'EAST'` default, is one of the four legal sides), the
absolute center of the rendered port rectangle coincides exactly with the
wire router's anchor point for that port — both are derived from the same
`portPositions` entry. -/
theorem c2_port_center_eq_anchor (g : ElkGraph) (node : ElkNode) (p : ElkPort)
    (hn : node ∈ g.children) (hp : p ∈ node.ports) (hs : portSideOf p ∈ sideNames) :
    ∃ a : Anchor, routerAnchor g p.id = some a
      ∧ renderPortCenterAbs g node p = (a.x, a.y) := by
  obtain ⟨pos, hpos⟩ := lookupPos_isSome_of_key g p.id
    (mem_keys_portPositions g node p hn hp hs)
  refine ⟨{ x := pos.x, y := pos.y, side := pos.side }, by rw [routerAnchor, hpos]; rfl, ?_⟩
  simp only [renderPortCenterAbs, renderPortTopLeft, hpos,
    qAdd_eq, qSub_eq, qDiv_eq, Prod.mk.injEq]
  constructor <;> ring

/-! ### Concrete laid-out graph for the C2 witness -/

def c2node : ElkNode :=
  { id := "N", width := some 360, height := some 150, x := some 20, y := some 30
    ports := [{ id := "N.p", width := 22, height := 22, side := some "EAST" }] }

def c2port : ElkPort :=
  { id := "N.p", width := 22, height := 22, side := some "EAST" }

def c2graph : ElkGraph := { children := [c2node], edges := [] }

/-- Witness for C2 at a concrete laid-out graph. -/
theorem c2_witness :
    c2node ∈ c2graph.children ∧ c2port ∈ c2node.ports
    ∧ portSideOf c2port ∈ sideNames
    ∧ ∃ a : Anchor, routerAnchor c2graph c2port.id = some a
      ∧ renderPortCenterAbs c2graph c2node c2port = (a.x, a.y) :=
  ⟨by decide, by decide, by decide,
    c2_port_center_eq_anchor c2graph c2node c2port (by decide) (by decide) (by decide)⟩

/-! ### C7: aggregator node heights -/

/-- The document of the C7 counterexample: one module with two declared,
never-connected `dir="end"` interfaces. -/
def c7doc : QsysDoc :=
  { modules := [{ name := some "m" }]
    connections := []
    interfaces := [
      { internal := some "m.a", type := some "clock", dir := some "end" },
      { internal := some "m.b", dir := some "end" }] }

/-- **C7** (corrected), counterexample: the `__external_input__` aggregator
synthesized for `c7doc` carries 2 ports, and in the returned graph its
height is 180 — the final height pass `max(150, n*45 + 90)` runs over
aggregators too — whereas the claim's formula `max(150, n*30 + 80)` gives
150. -/
theorem c7_counterexample :
    ((convertQsysToElk c7doc).children[1]?).map (fun n => (n.id, n.ports.length, n.height))
      = some ("__external_input__", 2, some 180)
    ∧ qMax 150 (qAdd (qMul (2 : ℚ) 30) 80) = 150
    ∧ ¬ ((180 : ℚ) = qMax 150 (qAdd (qMul (2 : ℚ) 30) 80)) := by
  refine ⟨by decide, by decide, by decide⟩

/-- **C7** (corrected), amended claim: `makeExternalNode` does create the
aggregator with height `max(150, portCount*30 + 80)`, but the final height
pass overwrites every child of the root — aggregators included — so in the
graph returned by `convertQsysToElk` every node's height is
`max(150, portCount*45 + 90)`. -/
theorem c7_aggregator_height_amended :
    (∀ (id lbl : String) (n : Nat), (makeExternalNode id lbl n).height
      = some (qMax 150 (qAdd (qMul (n : ℚ) 30) 80)))
    ∧ ∀ (d : QsysDoc), ∀ nd ∈ (convertQsysToElk d).children,
        nd.height = some (qMax 150 (qAdd (qMul (nd.ports.length : ℚ) 45) 90)) := by
  refine ⟨fun id lbl n => rfl, fun d nd h => ?_⟩
  simp only [convertQsysToElk, finalizeHeights] at h
  obtain ⟨m, hm, rfl⟩ := List.mem_map.mp h
  rfl

/-- The document of the C7 witness: a single module, no interfaces. -/
def c7wdoc : QsysDoc := { modules := [{ name := some "m" }] }

def c7wnode : ElkNode :=
  { id := "m", width := some 360, height := some 150, labels := ["m"]
    ports := [], kind := some "component", params := [] }

/-- Witness for C7's amended claim at a concrete document. -/
theorem c7_witness :
    c7wnode.height = some (qMax 150 (qAdd (qMul ((c7wnode.ports.length : ℚ)) 45) 90)) :=
  c7_aggregator_height_amended.2 c7wdoc c7wnode (by decide)

/-! ### C9: atomic drop of unresolvable connections -/

/-- **C9** (confirmed): a connection whose start or end reference has an
empty module segment, or whose module name does not resolve in the module
map, leaves the converter state completely unchanged — no edge appended,
no port created, no port id marked connected. -/
theorem c9_drop_atomic (m : List (String × String)) (st : ConvSt) (i : Nat) (c : ConnRec)
    (h : (jsSplitDot (jsOr c.start "")).headD "" = ""
       ∨ (jsSplitDot (jsOr c.endRef "")).headD "" = ""
       ∨ lastIdxOf st.nodes ((jsSplitDot (jsOr c.start "")).headD "") = none
       ∨ lastIdxOf st.nodes ((jsSplitDot (jsOr c.endRef "")).headD "") = none) :
    stepConn m st (i, c) = st := by
  simp only [stepConn]
  by_cases hif : (jsSplitDot (jsOr c.start "")).headD "" = ""
      ∨ (jsSplitDot (jsOr c.endRef "")).headD "" = ""
  · rw [if_pos hif]
  · rw [if_neg hif]
    rcases h with h | h | h | h
    · exact absurd (Or.inl h) hif
    · exact absurd (Or.inr h) hif
    · rw [h]
    · rcases hsi : lastIdxOf st.nodes ((jsSplitDot (jsOr c.start "")).headD "") with _ | si
      · rfl
      · rw [h]

/-- Witness for C9: a connection whose start module `"x"` is not a module
of the state. -/
theorem c9_witness :
    stepConn [] { nodes := [{ id := "m" }], edges := [], connected := [], unconnected := [] }
      (0, { start := some "x.a", endRef := some "m.b" })
    = { nodes := [{ id := "m" }], edges := [], connected := [], unconnected := [] } :=
  c9_drop_atomic [] _ 0 _ (by decide)

/-! ### Monotonicity infrastructure for the graph-builder folds

Graph construction only ever appends ports to nodes (deduplicated by id)
and never changes a node's id, so the node list evolves monotonically:
same length, same ids, each node's port list extended on the right. -/

@[reducible] def portsExtend (ns ns' : List ElkNode) : Prop :=
  ns.length = ns'.length ∧
    ∀ (k : Nat) (n n' : ElkNode), ns[k]? = some n → ns'[k]? = some n' →
      n.id = n'.id ∧ ∃ t, n'.ports = n.ports ++ t

theorem portsExtend_refl (ns : List ElkNode) : portsExtend ns ns := by
  refine ⟨rfl, fun k n n' h h' => ?_⟩
  rw [h] at h'
  cases h'
  exact ⟨rfl, [], by simp⟩

theorem portsExtend_trans {n1 n2 n3 : List ElkNode}
    (h12 : portsExtend n1 n2) (h23 : portsExtend n2 n3) : portsExtend n1 n3 := by
  obtain ⟨hl12, h12⟩ := h12
  obtain ⟨hl23, h23⟩ := h23
  refine ⟨hl12.trans hl23, fun k n n' h h' => ?_⟩
  have hk : k < n2.length := by
    rw [← hl12]
    exact (List.getElem?_eq_some_iff.mp h).1
  obtain ⟨m, hm⟩ : ∃ m, n2[k]? = some m := ⟨n2[k], List.getElem?_eq_getElem hk⟩
  obtain ⟨hid1, t1, ht1⟩ := h12 k n m h hm
  obtain ⟨hid2, t2, ht2⟩ := h23 k m n' hm h'
  exact ⟨hid1.trans hid2, t1 ++ t2, by rw [ht2, ht1, List.append_assoc]⟩

theorem addPort_id (n : ElkNode) (p : ElkPort) : (addPort n p).id = n.id := by
  rw [addPort]
  split <;> rfl

theorem addPort_ports (n : ElkNode) (p : ElkPort) :
    ∃ t, (addPort n p).ports = n.ports ++ t := by
  rw [addPort]
  split
  · exact ⟨[], by simp⟩
  · exact ⟨[p], rfl⟩

theorem portsExtend_updateNode (ns : List ElkNode) (i : Nat) (f : ElkNode → ElkNode)
    (hid : ∀ n, (f n).id = n.id) (hp : ∀ n, ∃ t, (f n).ports = n.ports ++ t) :
    portsExtend ns (updateNode ns i f) := by
  rw [updateNode]
  rcases hni : ns[i]? with _ | m
  · exact portsExtend_refl ns
  · refine ⟨(List.length_set ns i (f m)).symm, fun k n n' h h' => ?_⟩
    by_cases hk : i = k
    · subst hk
      have hmn := hni.symm.trans h
      injection hmn with hmn
      subst hmn
      rw [List.getElem?_set_self (List.getElem?_eq_some_iff.mp hni).1] at h'
      cases h'
      exact ⟨(hid _).symm, hp _⟩
    · rw [List.getElem?_set_ne hk] at h'
      rw [h] at h'
      cases h'
      exact ⟨rfl, [], by simp⟩

theorem stepConn_extends (m : List (String × String)) (st : ConvSt) (ic : Nat × ConnRec) :
    portsExtend st.nodes (stepConn m st ic).nodes := by
  obtain ⟨i, c⟩ := ic
  simp only [stepConn]
  split
  · exact portsExtend_refl _
  · rcases hsi : lastIdxOf st.nodes ((jsSplitDot (jsOr c.start "")).headD "") with _ | si <;>
      rcases hti : lastIdxOf st.nodes ((jsSplitDot (jsOr c.endRef "")).headD "") with _ | ti <;>
      simp only
    · exact portsExtend_refl _
    · exact portsExtend_refl _
    · exact portsExtend_refl _
    · exact portsExtend_trans
        (portsExtend_updateNode _ _ _ (fun n => addPort_id n _) (fun n => addPort_ports n _))
        (portsExtend_updateNode _ _ _ (fun n => addPort_id n _) (fun n => addPort_ports n _))

theorem stepIntf_extends (st : ConvSt) (intf : IntfRec) :
    portsExtend st.nodes (stepIntf st intf).nodes := by
  rw [stepIntf]
  split
  · exact portsExtend_refl _
  · rcases hni : lastIdxOf st.nodes ((jsSplitDot (jsOr intf.internal "")).headD "") with _ | ni
    · exact portsExtend_refl _
    · exact portsExtend_updateNode _ _ _ (fun n => addPort_id n _) (fun n => addPort_ports n _)

theorem foldl_extends {β : Type} (f : ConvSt → β → ConvSt)
    (hf : ∀ st b, portsExtend st.nodes (f st b).nodes) :
    ∀ (l : List β) (st : ConvSt), portsExtend st.nodes (l.foldl f st).nodes := by
  intro l
  induction l with
  | nil => intro st; exact portsExtend_refl _
  | cons b l ih =>
    intro st
    exact portsExtend_trans (hf st b) (ih (f st b))

theorem foldl_preserves {β : Type} (f : ConvSt → β → ConvSt) (P : ConvSt → Prop)
    (hf : ∀ st b, P st → P (f st b)) :
    ∀ (l : List β) (st : ConvSt), P st → P (l.foldl f st) := by
  intro l
  induction l with
  | nil => intro st h; exact h
  | cons b l ih => intro st h; exact ih (f st b) (hf st b h)

/-! ### Port existence -/

/-- A port with id `pid` exists on some node of the list. -/
def portExistsIn (ns : List ElkNode) (pid : String) : Prop :=
  ∃ n ∈ ns, ∃ p ∈ n.ports, p.id = pid

theorem portExistsIn_mono {ns ns' : List ElkNode} (h : portsExtend ns ns')
    {pid : String} (hp : portExistsIn ns pid) : portExistsIn ns' pid := by
  obtain ⟨n, hn, p, hpm, hpid⟩ := hp
  obtain ⟨k, hk⟩ := List.getElem?_of_mem hn
  have hk' : k < ns'.length := by
    rw [← h.1]
    exact (List.getElem?_eq_some_iff.mp hk).1
  obtain ⟨n', hn'⟩ : ∃ n', ns'[k]? = some n' := ⟨ns'[k], List.getElem?_eq_getElem hk'⟩
  obtain ⟨_, t, ht⟩ := h.2 k n n' hk hn'
  exact ⟨n', List.getElem?_mem hn', p, by rw [ht]; exact List.mem_append_left t hpm, hpid⟩

theorem portExistsIn_append_left {ns ms : List ElkNode} {pid : String}
    (h : portExistsIn ns pid) : portExistsIn (ns ++ ms) pid := by
  obtain ⟨n, hn, hp⟩ := h
  exact ⟨n, List.mem_append_left ms hn, hp⟩

theorem portExistsIn_append_right {ns ms : List ElkNode} {pid : String}
    (h : portExistsIn ms pid) : portExistsIn (ns ++ ms) pid := by
  obtain ⟨n, hn, hp⟩ := h
  exact ⟨n, List.mem_append_right ns hn, hp⟩

theorem portExistsIn_finalize {ns : List ElkNode} {pid : String} :
    portExistsIn (finalizeHeights ns) pid ↔ portExistsIn ns pid := by
  constructor
  · rintro ⟨n, hn, p, hp, hpid⟩
    obtain ⟨m, hm, rfl⟩ := List.mem_map.mp hn
    exact ⟨m, hm, p, hp, hpid⟩
  · rintro ⟨n, hn, p, hp, hpid⟩
    exact ⟨_, List.mem_map_of_mem _ hn, p, hp, hpid⟩

theorem lastIdxOf_lt : ∀ (ns : List ElkNode) (nm : String) (i : Nat),
    lastIdxOf ns nm = some i → i < ns.length := by
  intro ns
  induction ns with
  | nil => intro nm i h; cases h
  | cons n rest ih =>
    intro nm i h
    rcases hr : lastIdxOf rest nm with _ | j <;> simp only [lastIdxOf, hr] at h
    · split at h
      · cases h; simp
      · cases h
    · cases h
      have := ih nm j hr
      simp only [List.length_cons]
      omega

theorem mem_addPort_self (n : ElkNode) (p : ElkPort) :
    ∃ q ∈ (addPort n p).ports, q.id = p.id := by
  rw [addPort]
  split
  · rename_i h
    obtain ⟨q, hq1, hq2⟩ := List.any_eq_true.mp h
    exact ⟨q, hq1, by simpa using hq2⟩
  · exact ⟨p, List.mem_append_right _ (List.mem_singleton_self p), rfl⟩

theorem portExistsIn_updateNode_addPort (ns : List ElkNode) (i : Nat) (p : ElkPort)
    (hi : i < ns.length) :
    portExistsIn (updateNode ns i (fun n => addPort n p)) p.id := by
  rw [updateNode]
  rcases hni : ns[i]? with _ | m
  · rw [List.getElem?_eq_getElem hi] at hni
    exact Option.noConfusion hni
  · obtain ⟨q, hq, hqid⟩ := mem_addPort_self m p
    refine ⟨addPort m p, ?_, q, hq, hqid⟩
    have hset : (ns.set i (addPort m p))[i]? = some (addPort m p) :=
      List.getElem?_set_self (by simpa using hi)
    exact List.getElem?_mem hset

theorem length_updateNode (ns : List ElkNode) (i : Nat) (f : ElkNode → ElkNode) :
    (updateNode ns i f).length = ns.length := by
  rw [updateNode]
  split
  · exact List.length_set ns i _
  · rfl

theorem mem_of_mem_enum {α : Type} {l : List α} {ia : Nat × α} (h : ia ∈ l.enum) :
    ia.2 ∈ l := by
  have h2 := List.mem_map_of_mem Prod.snd h
  rwa [List.enum_map_snd] at h2

/-! ### The no-dangling-edges invariant (claim C3) -/

/-- Every edge has singleton sources/targets referring to existing ports. -/
def edgesOk (st : ConvSt) : Prop :=
  ∀ e ∈ st.edges, ∃ sid tid, e.sources = [sid] ∧ e.targets = [tid]
    ∧ portExistsIn st.nodes sid ∧ portExistsIn st.nodes tid

/-- Every recorded unconnected interface refers to an existing port. -/
def unconnOk (st : ConvSt) : Prop :=
  ∀ u ∈ st.unconnected, portExistsIn st.nodes u.portId

theorem stepConn_inv (m : List (String × String)) (st : ConvSt) (ic : Nat × ConnRec)
    (h : edgesOk st ∧ unconnOk st) :
    edgesOk (stepConn m st ic) ∧ unconnOk (stepConn m st ic) := by
  obtain ⟨i, c⟩ := ic
  obtain ⟨he, hu⟩ := h
  simp only [stepConn]
  split
  · exact ⟨he, hu⟩
  · rcases hsi : lastIdxOf st.nodes ((jsSplitDot (jsOr c.start "")).headD "") with _ | si <;>
      rcases hti : lastIdxOf st.nodes ((jsSplitDot (jsOr c.endRef "")).headD "") with _ | ti <;>
      simp only
    · exact ⟨he, hu⟩
    · exact ⟨he, hu⟩
    · exact ⟨he, hu⟩
    · have hsilt := lastIdxOf_lt _ _ _ hsi
      have htilt := lastIdxOf_lt _ _ _ hti
      have hext1 : portsExtend st.nodes
          (updateNode st.nodes si (fun n => addPort n
            { id := (jsSplitDot (jsOr c.start "")).headD "" ++ "."
                ++ jsStr (jsSplitDot (jsOr c.start ""))[1]?,
              width := 22, height := 22,
              side := some "EAST", label := (jsSplitDot (jsOr c.start ""))[1]?,
              color := some (getKindColor (resolveConnectionType c.kind
                (lookupLast m (jsOr c.start "")) (lookupLast m (jsOr c.endRef "")))),
              internalKind := some (resolveConnectionType c.kind
                (lookupLast m (jsOr c.start "")) (lookupLast m (jsOr c.endRef ""))) })) :=
        portsExtend_updateNode _ _ _ (fun n => addPort_id n _) (fun n => addPort_ports n _)
      have hext2 := portsExtend_updateNode
        (updateNode st.nodes si (fun n => addPort n
            { id := (jsSplitDot (jsOr c.start "")).headD "" ++ "."
                ++ jsStr (jsSplitDot (jsOr c.start ""))[1]?,
              width := 22, height := 22,
              side := some "EAST", label := (jsSplitDot (jsOr c.start ""))[1]?,
              color := some (getKindColor (resolveConnectionType c.kind
                (lookupLast m (jsOr c.start "")) (lookupLast m (jsOr c.endRef "")))),
              internalKind := some (resolveConnectionType c.kind
                (lookupLast m (jsOr c.start "")) (lookupLast m (jsOr c.endRef ""))) }))
        ti (fun n => addPort n
            { id := (jsSplitDot (jsOr c.endRef "")).headD "" ++ "."
                ++ jsStr (jsSplitDot (jsOr c.endRef ""))[1]?,
              width := 22, height := 22,
              side := some "WEST", label := (jsSplitDot (jsOr c.endRef ""))[1]?,
              color := some (getKindColor (resolveConnectionType c.kind
                (lookupLast m (jsOr c.start "")) (lookupLast m (jsOr c.endRef "")))),
              internalKind := some (resolveConnectionType c.kind
                (lookupLast m (jsOr c.start "")) (lookupLast m (jsOr c.endRef ""))) })
        (fun n => addPort_id n _) (fun n => addPort_ports n _)
      have hext12 := portsExtend_trans hext1 hext2
      constructor
      · intro e hem
        rcases List.mem_append.mp hem with hold | hnew
        · obtain ⟨sid, tid, e1, e2, e3, e4⟩ := he e hold
          exact ⟨sid, tid, e1, e2, portExistsIn_mono hext12 e3, portExistsIn_mono hext12 e4⟩
        · rw [List.mem_singleton] at hnew
          subst hnew
          refine ⟨_, _, rfl, rfl, ?_, ?_⟩
          · exact portExistsIn_mono hext2 (portExistsIn_updateNode_addPort _ si _ hsilt)
          · exact portExistsIn_updateNode_addPort _ ti _
              (by rw [length_updateNode]; exact htilt)
      · intro u hum
        exact portExistsIn_mono hext12 (hu u hum)

theorem stepIntf_inv (st : ConvSt) (intf : IntfRec) (h : edgesOk st ∧ unconnOk st) :
    edgesOk (stepIntf st intf) ∧ unconnOk (stepIntf st intf) := by
  obtain ⟨he, hu⟩ := h
  simp only [stepIntf]
  split
  · exact ⟨he, hu⟩
  · rcases hni : lastIdxOf st.nodes ((jsSplitDot (jsOr intf.internal "")).headD "") with _ | ni
    · exact ⟨he, hu⟩
    · have hnilt := lastIdxOf_lt _ _ _ hni
      have hext : portsExtend st.nodes
          (updateNode st.nodes ni (fun n => addPort n
            { id := jsOr intf.internal "", width := 22, height := 22,
              side := some (if jsOr intf.dir "end" = "start" then "EAST" else "WEST"),
              label := (jsSplitDot (jsOr intf.internal ""))[1]?,
              color := some (getKindColor (normalizeType intf.type)),
              internalKind := some (normalizeType intf.type) })) :=
        portsExtend_updateNode _ _ _ (fun n => addPort_id n _) (fun n => addPort_ports n _)
      constructor
      · intro e hem
        dsimp only at hem ⊢
        obtain ⟨sid, tid, e1, e2, e3, e4⟩ := he e hem
        exact ⟨sid, tid, e1, e2, portExistsIn_mono hext e3, portExistsIn_mono hext e4⟩
      · intro u hum
        dsimp only at hum ⊢
        split at hum
        · exact portExistsIn_mono hext (hu u hum)
        · rcases List.mem_append.mp hum with hold | hnew
          · exact portExistsIn_mono hext (hu u hold)
          · rw [List.mem_singleton] at hnew
            subst hnew
            exact portExistsIn_updateNode_addPort _ ni _ hnilt

theorem buildAggregates_edges_ok (st : ConvSt) (hu : unconnOk st) :
    ∀ e ∈ (buildAggregates st).2, ∃ sid tid, e.sources = [sid] ∧ e.targets = [tid]
      ∧ portExistsIn (st.nodes ++ (buildAggregates st).1) sid
      ∧ portExistsIn (st.nodes ++ (buildAggregates st).1) tid := by
  intro e hem
  rw [buildAggregates] at hem ⊢
  split at hem
  · cases hem
  · rename_i hne
    simp only at hem ⊢
    rw [if_neg hne]
    rcases List.mem_append.mp hem with hin | hout
    · obtain ⟨iu, hiu, rfl⟩ := List.mem_map.mp hin
      have humem : iu.2 ∈ aggInputs st := mem_of_mem_enum hiu
      have hlen : aggInputs st ≠ [] := List.ne_nil_of_mem humem
      have hlen' : (aggInputs st).length > 0 := List.length_pos.mpr hlen
      refine ⟨_, _, rfl, rfl, ?_, ?_⟩
      · apply portExistsIn_append_right
        refine ⟨_, List.mem_append_left _ (by rw [if_pos hlen']; exact List.mem_singleton_self _), ?_⟩
        exact ⟨mkExtInPort iu.2, List.mem_map_of_mem _ humem, rfl⟩
      · exact portExistsIn_append_left (hu iu.2 (List.mem_filter.mp humem).1)
    · obtain ⟨iu, hiu, rfl⟩ := List.mem_map.mp hout
      have humem : iu.2 ∈ aggOutputs st := mem_of_mem_enum hiu
      have hlen : aggOutputs st ≠ [] := List.ne_nil_of_mem humem
      have hlen' : (aggOutputs st).length > 0 := List.length_pos.mpr hlen
      refine ⟨_, _, rfl, rfl, ?_, ?_⟩
      · exact portExistsIn_append_left (hu iu.2 (List.mem_filter.mp humem).1)
      · apply portExistsIn_append_right
        refine ⟨_, List.mem_append_right _ (by rw [if_pos hlen']; exact List.mem_singleton_self _), ?_⟩
        exact ⟨mkExtOutPort iu.2, List.mem_map_of_mem _ humem, rfl⟩

/-- **C3** (confirmed): in the graph returned by `convertQsysToElk`, every
edge has exactly one source port id and one target port id, and both refer
to ports that exist on some node of the graph — no dangling endpoints. -/
theorem c3_no_dangling_edges (d : QsysDoc) (e : ElkEdge)
    (he : e ∈ (convertQsysToElk d).edges) :
    ∃ sid tid, e.sources = [sid] ∧ e.targets = [tid]
      ∧ (∃ n ∈ (convertQsysToElk d).children, ∃ p ∈ n.ports, p.id = sid)
      ∧ (∃ n ∈ (convertQsysToElk d).children, ∃ p ∈ n.ports, p.id = tid) := by
  have h0 : edgesOk (st0 d) ∧ unconnOk (st0 d) := by
    constructor
    · intro e h; cases h
    · intro u h; cases h
  have h1 : edgesOk (stConn d) ∧ unconnOk (stConn d) :=
    foldl_preserves _ _ (stepConn_inv (ityMapOf d)) _ _ h0
  have h2 : edgesOk (stIntf d) ∧ unconnOk (stIntf d) :=
    foldl_preserves _ _ stepIntf_inv _ _ h1
  have hsplit : (convertQsysToElk d).edges
      = (stIntf d).edges ++ (buildAggregates (stIntf d)).2 := rfl
  have hch : (convertQsysToElk d).children
      = finalizeHeights ((stIntf d).nodes ++ (buildAggregates (stIntf d)).1) := rfl
  rw [hsplit] at he
  rcases List.mem_append.mp he with h1m | h2m
  · obtain ⟨sid, tid, e1, e2, e3, e4⟩ := h2.1 e h1m
    refine ⟨sid, tid, e1, e2, ?_, ?_⟩
    · rw [hch]
      exact portExistsIn_finalize.mpr (portExistsIn_append_left e3)
    · rw [hch]
      exact portExistsIn_finalize.mpr (portExistsIn_append_left e4)
  · obtain ⟨sid, tid, e1, e2, e3, e4⟩ := buildAggregates_edges_ok (stIntf d) h2.2 e h2m
    refine ⟨sid, tid, e1, e2, ?_, ?_⟩
    · rw [hch]
      exact portExistsIn_finalize.mpr e3
    · rw [hch]
      exact portExistsIn_finalize.mpr e4

/-- The document of the C3 witness: two modules and one connection. -/
def c3doc : QsysDoc :=
  { modules := [{ name := some "m" }, { name := some "n" }]
    connections := [{ start := some "m.a", endRef := some "n.b", kind := some "clock" }] }

def c3edge : ElkEdge :=
  { id := "edge_0", sources := ["m.a"], targets := ["n.b"]
    isVector := some false, labels := ["clock"]
    edgeColor := "#ef4444", edgeType := "clock" }

/-- Witness for C3 at a concrete document. -/
theorem c3_witness :
    c3edge ∈ (convertQsysToElk c3doc).edges
    ∧ ∃ sid tid, c3edge.sources = [sid] ∧ c3edge.targets = [tid]
      ∧ (∃ n ∈ (convertQsysToElk c3doc).children, ∃ p ∈ n.ports, p.id = sid)
      ∧ (∃ n ∈ (convertQsysToElk c3doc).children, ∃ p ∈ n.ports, p.id = tid) :=
  ⟨by decide, c3_no_dangling_edges c3doc c3edge (by decide)⟩

/-! ### Claim C10: a created port is never modified -/

theorem nodes_carry_to_children (d : QsysDoc) (ns : List ElkNode)
    (hext : portsExtend ns (stIntf d).nodes) (k : Nat) (n : ElkNode) (p : ElkPort)
    (hk : ns[k]? = some n) (hp : p ∈ n.ports) :
    ∃ n', (convertQsysToElk d).children[k]? = some n' ∧ n'.id = n.id
      ∧ p ∈ n'.ports ∧ ∃ t, n'.ports = n.ports ++ t := by
  have hk2 : k < (stIntf d).nodes.length := by
    rw [← hext.1]
    exact (List.getElem?_eq_some_iff.mp hk).1
  obtain ⟨n2, hn2⟩ : ∃ n2, (stIntf d).nodes[k]? = some n2 :=
    ⟨(stIntf d).nodes[k], List.getElem?_eq_getElem hk2⟩
  obtain ⟨hid2, t2, ht2⟩ := hext.2 k n n2 hk hn2
  have hch : (convertQsysToElk d).children
      = finalizeHeights ((stIntf d).nodes ++ (buildAggregates (stIntf d)).1) := rfl
  have happ : ((stIntf d).nodes ++ (buildAggregates (stIntf d)).1)[k]? = some n2 :=
    by rw [List.getElem?_append_left hk2]; exact hn2
  refine ⟨{ n2 with height := some (qMax 150 (qAdd (qMul (n2.ports.length : ℚ) 45) 90)) },
    ?_, hid2.symm, ?_, t2, ht2⟩
  · rw [hch, finalizeHeights, List.getElem?_map, happ]
    rfl
  · show p ∈ n2.ports
    rw [ht2]
    exact List.mem_append_left t2 hp

/-- **C10** (confirmed): once a port exists on a node at any intermediate
point of graph construction — after any prefix of the connection pass, or
after any prefix of the interface pass — the returned graph still holds
that node (same index, same id) with the identical port value, its port
list only extended on the right.  In particular no later connection
sharing the endpoint and no later interface declaration for the same port
id changes the port's side, color, label or resolved protocol kind. -/
theorem c10_port_immutable (d : QsysDoc) :
    (∀ (l1 l2 : List (Nat × ConnRec)), d.connections.enum = l1 ++ l2 →
      ∀ (k : Nat) (n : ElkNode) (p : ElkPort),
        (l1.foldl (stepConn (ityMapOf d)) (st0 d)).nodes[k]? = some n → p ∈ n.ports →
        ∃ n', (convertQsysToElk d).children[k]? = some n' ∧ n'.id = n.id
          ∧ p ∈ n'.ports ∧ ∃ t, n'.ports = n.ports ++ t)
    ∧ (∀ (m1 m2 : List IntfRec), d.interfaces = m1 ++ m2 →
      ∀ (k : Nat) (n : ElkNode) (p : ElkPort),
        (m1.foldl stepIntf (stConn d)).nodes[k]? = some n → p ∈ n.ports →
        ∃ n', (convertQsysToElk d).children[k]? = some n' ∧ n'.id = n.id
          ∧ p ∈ n'.ports ∧ ∃ t, n'.ports = n.ports ++ t) := by
  constructor
  · intro l1 l2 hsplit k n p hmid hp
    have hext1 : portsExtend (l1.foldl (stepConn (ityMapOf d)) (st0 d)).nodes
        (stConn d).nodes := by
      rw [stConn, hsplit, List.foldl_append]
      exact foldl_extends _ (stepConn_extends (ityMapOf d)) l2 _
    have hext2 : portsExtend (stConn d).nodes (stIntf d).nodes :=
      foldl_extends _ stepIntf_extends d.interfaces (stConn d)
    exact nodes_carry_to_children d _ (portsExtend_trans hext1 hext2) k n p hmid hp
  · intro m1 m2 hsplit k n p hmid hp
    have hext : portsExtend (m1.foldl stepIntf (stConn d)).nodes (stIntf d).nodes := by
      rw [stIntf, hsplit, List.foldl_append]
      exact foldl_extends _ stepIntf_extends m2 _
    exact nodes_carry_to_children d _ hext k n p hmid hp

/-- The C10 witness document: a connection creates port `m.a` (EAST,
resolved type "reset" via the interface type map), then a second
connection shares the endpoint and an interface declaration re-declares
`m.a` with `dir="end"` (which would make it WEST if it were applied). -/
def c10doc : QsysDoc :=
  { modules := [{ name := some "m" }, { name := some "n" }]
    connections := [
      { start := some "m.a", endRef := some "n.b", kind := some "clock" },
      { start := some "m.a", endRef := some "n.c", kind := some "avalon" }]
    interfaces := [{ internal := some "m.a", type := some "reset", dir := some "end" }] }

def c10port : ElkPort :=
  { id := "m.a", width := 22, height := 22, side := some "EAST", label := some "a"
    color := some "#a855f7", internalKind := some "reset" }

def c10nodeMid : ElkNode :=
  { id := "m", width := some 360, height := some 120, labels := ["m"]
    ports := [c10port], kind := some "component", params := [] }

/-- Witness for C10: the port created by the first connection survives,
unchanged, the second connection and the interface re-declaration. -/
theorem c10_witness :
    ∃ n', (convertQsysToElk c10doc).children[0]? = some n' ∧ n'.id = c10nodeMid.id
      ∧ c10port ∈ n'.ports ∧ ∃ t, n'.ports = c10nodeMid.ports ++ t :=
  (c10_port_immutable c10doc).2 [] c10doc.interfaces rfl 0 c10nodeMid c10port
    (by decide) (by decide)

/-! ### Characterization of `connectedPortIds` and the unconnected list
(claim C8) -/

def nodeIds (ns : List ElkNode) : List String := ns.map (·.id)

theorem nodeIds_eq_of_extends {ns ns' : List ElkNode} (h : portsExtend ns ns') :
    nodeIds ns = nodeIds ns' := by
  apply List.ext_getElem?
  intro i
  rw [nodeIds, nodeIds, List.getElem?_map, List.getElem?_map]
  by_cases hi : i < ns.length
  · have hi' : i < ns'.length := by rw [← h.1]; exact hi
    obtain ⟨n, hn⟩ : ∃ n, ns[i]? = some n := ⟨ns[i], List.getElem?_eq_getElem hi⟩
    obtain ⟨n', hn'⟩ : ∃ n', ns'[i]? = some n' := ⟨ns'[i], List.getElem?_eq_getElem hi'⟩
    rw [hn, hn']
    obtain ⟨hid, -⟩ := h.2 i n n' hn hn'
    simp [hid]
  · have hi' : ¬ i < ns'.length := by rw [← h.1]; exact hi
    rw [List.getElem?_eq_none (by omega), List.getElem?_eq_none (by omega)]

theorem lastIdxOf_congr : ∀ (ns ns' : List ElkNode), nodeIds ns = nodeIds ns' →
    ∀ nm, lastIdxOf ns nm = lastIdxOf ns' nm := by
  intro ns
  induction ns with
  | nil =>
    intro ns' h nm
    cases ns' with
    | nil => rfl
    | cons m ms => cases h
  | cons n rest ih =>
    intro ns' h nm
    cases ns' with
    | nil => cases h
    | cons m ms =>
      simp only [nodeIds, List.map_cons, List.cons.injEq] at h
      obtain ⟨hid, htl⟩ := h
      simp only [lastIdxOf, ih ms htl nm, hid]

/-- The derived source port id of a connection record. -/
def srcIdOf (c : ConnRec) : String :=
  (jsSplitDot (jsOr c.start "")).headD "" ++ "." ++ jsStr (jsSplitDot (jsOr c.start ""))[1]?

/-- The derived target port id of a connection record. -/
def tgtIdOf (c : ConnRec) : String :=
  (jsSplitDot (jsOr c.endRef "")).headD "" ++ "." ++ jsStr (jsSplitDot (jsOr c.endRef ""))[1]?

/-- Both endpoint references carry a non-empty module segment that resolves
in the node list. -/
def connResolves (ns : List ElkNode) (c : ConnRec) : Prop :=
  ¬ (jsSplitDot (jsOr c.start "")).headD "" = ""
  ∧ ¬ (jsSplitDot (jsOr c.endRef "")).headD "" = ""
  ∧ (∃ si, lastIdxOf ns ((jsSplitDot (jsOr c.start "")).headD "") = some si)
  ∧ (∃ ti, lastIdxOf ns ((jsSplitDot (jsOr c.endRef "")).headD "") = some ti)

theorem connResolves_congr {ns ns' : List ElkNode} (h : nodeIds ns = nodeIds ns')
    (c : ConnRec) : connResolves ns c ↔ connResolves ns' c := by
  rw [connResolves, connResolves, lastIdxOf_congr ns ns' h, lastIdxOf_congr ns ns' h]

theorem stepConn_connected (m : List (String × String)) (st : ConvSt) (i : Nat)
    (c : ConnRec) (pid : String) :
    pid ∈ (stepConn m st (i, c)).connected ↔
      (connResolves st.nodes c ∧ (pid = srcIdOf c ∨ pid = tgtIdOf c))
      ∨ pid ∈ st.connected := by
  simp only [stepConn]
  split
  · rename_i hif
    rw [connResolves]
    constructor
    · intro h; exact Or.inr h
    · rintro (⟨⟨h1, h2, -⟩, -⟩ | h)
      · rcases hif with hif | hif
        · exact absurd hif h1
        · exact absurd hif h2
      · exact h
  · rename_i hif
    push_neg at hif
    rcases hsi : lastIdxOf st.nodes ((jsSplitDot (jsOr c.start "")).headD "") with _ | si <;>
      rcases hti : lastIdxOf st.nodes ((jsSplitDot (jsOr c.endRef "")).headD "") with _ | ti <;>
      simp only
    · rw [connResolves]
      constructor
      · exact Or.inr
      · rintro (⟨⟨-, -, ⟨si, hsi'⟩, -⟩, -⟩ | h)
        · rw [hsi] at hsi'; cases hsi'
        · exact h
    · rw [connResolves]
      constructor
      · exact Or.inr
      · rintro (⟨⟨-, -, ⟨si, hsi'⟩, -⟩, -⟩ | h)
        · rw [hsi] at hsi'; cases hsi'
        · exact h
    · rw [connResolves]
      constructor
      · exact Or.inr
      · rintro (⟨⟨-, -, -, ⟨ti, hti'⟩⟩, -⟩ | h)
        · rw [hti] at hti'; cases hti'
        · exact h
    · show pid ∈ srcIdOf c :: tgtIdOf c :: st.connected ↔ _
      rw [List.mem_cons, List.mem_cons, connResolves]
      constructor
      · rintro (h | h | h)
        · exact Or.inl ⟨⟨hif.1, hif.2, ⟨si, hsi⟩, ⟨ti, hti⟩⟩, Or.inl h⟩
        · exact Or.inl ⟨⟨hif.1, hif.2, ⟨si, hsi⟩, ⟨ti, hti⟩⟩, Or.inr h⟩
        · exact Or.inr h
      · rintro (⟨-, h | h⟩ | h)
        · exact Or.inl h
        · exact Or.inr (Or.inl h)
        · exact Or.inr (Or.inr h)

theorem stepConn_unconnected (m : List (String × String)) (st : ConvSt)
    (ic : Nat × ConnRec) : (stepConn m st ic).unconnected = st.unconnected := by
  obtain ⟨i, c⟩ := ic
  simp only [stepConn]
  split
  · rfl
  · rcases lastIdxOf st.nodes ((jsSplitDot (jsOr c.start "")).headD "") with _ | si <;>
      rcases lastIdxOf st.nodes ((jsSplitDot (jsOr c.endRef "")).headD "") with _ | ti <;>
      rfl

theorem stepIntf_connected (st : ConvSt) (intf : IntfRec) :
    (stepIntf st intf).connected = st.connected := by
  simp only [stepIntf]
  split
  · rfl
  · rcases lastIdxOf st.nodes ((jsSplitDot (jsOr intf.internal "")).headD "") with _ | ni <;>
      rfl

theorem stepConn_nodeIds (m : List (String × String)) (st : ConvSt)
    (ic : Nat × ConnRec) : nodeIds (stepConn m st ic).nodes = nodeIds st.nodes :=
  (nodeIds_eq_of_extends (stepConn_extends m st ic)).symm

theorem stepIntf_nodeIds (st : ConvSt) (intf : IntfRec) :
    nodeIds (stepIntf st intf).nodes = nodeIds st.nodes :=
  (nodeIds_eq_of_extends (stepIntf_extends st intf)).symm

theorem foldConn_connected (m : List (String × String)) :
    ∀ (l : List (Nat × ConnRec)) (st : ConvSt) (pid : String),
    pid ∈ (l.foldl (stepConn m) st).connected ↔
      (∃ ic ∈ l, connResolves st.nodes ic.2 ∧ (pid = srcIdOf ic.2 ∨ pid = tgtIdOf ic.2))
      ∨ pid ∈ st.connected := by
  intro l
  induction l with
  | nil => intro st pid; simp
  | cons a l ih =>
    intro st pid
    obtain ⟨i, c⟩ := a
    rw [List.foldl_cons, ih]
    have hres : ∀ c2, connResolves (stepConn m st (i, c)).nodes c2
        ↔ connResolves st.nodes c2 :=
      fun c2 => connResolves_congr (stepConn_nodeIds m st (i, c)) c2
    rw [stepConn_connected]
    simp only [List.mem_cons, hres]
    constructor
    · rintro (⟨ic, hmem, hic⟩ | ⟨hc, hor⟩ | hold)
      · exact Or.inl ⟨ic, Or.inr hmem, hic⟩
      · exact Or.inl ⟨(i, c), Or.inl rfl, hc, hor⟩
      · exact Or.inr hold
    · rintro (⟨ic, hmem | hmem, hic⟩ | hold)
      · cases hmem; exact Or.inr (Or.inl hic)
      · exact Or.inl ⟨ic, hmem, hic⟩
      · exact Or.inr (Or.inr hold)

theorem foldConn_unconnected (m : List (String × String)) :
    ∀ (l : List (Nat × ConnRec)) (st : ConvSt),
    (l.foldl (stepConn m) st).unconnected = st.unconnected := by
  intro l
  induction l with
  | nil => intro st; rfl
  | cons a l ih => intro st; rw [List.foldl_cons, ih, stepConn_unconnected]

/-- The `unconnectedInterfacePorts` entry (if any) contributed by one
interface element, given the node list and the connected-id set in force
during the interface pass. -/
def intfEntry (ns : List ElkNode) (connected : List String) (intf : IntfRec) :
    Option UPort :=
  if (jsSplitDot (jsOr intf.internal "")).headD "" = ""
      ∨ jsFalsy (jsSplitDot (jsOr intf.internal ""))[1]? then none
  else
    match lastIdxOf ns ((jsSplitDot (jsOr intf.internal "")).headD "") with
    | none => none
    | some _ =>
      if jsOr intf.internal "" ∈ connected then none
      else some
        { portId := jsOr intf.internal ""
          label := jsStr (jsSplitDot (jsOr intf.internal ""))[1]?
          kind := normalizeType intf.type
          color := getKindColor (normalizeType intf.type)
          dir := jsOr intf.dir "end" }

theorem intfEntry_congr {ns ns' : List ElkNode} (h : nodeIds ns = nodeIds ns')
    (connected : List String) (intf : IntfRec) :
    intfEntry ns connected intf = intfEntry ns' connected intf := by
  rw [intfEntry, intfEntry, lastIdxOf_congr ns ns' h]

theorem stepIntf_unconnected (st : ConvSt) (intf : IntfRec) :
    (stepIntf st intf).unconnected
      = st.unconnected ++ (intfEntry st.nodes st.connected intf).toList := by
  by_cases h1 : (jsSplitDot (jsOr intf.internal "")).headD "" = ""
      ∨ jsFalsy (jsSplitDot (jsOr intf.internal ""))[1]? = true
  · simp only [stepIntf, intfEntry, if_pos h1, Option.toList_none, List.append_nil]
  · simp only [stepIntf, intfEntry, if_neg h1]
    rcases hni : lastIdxOf st.nodes ((jsSplitDot (jsOr intf.internal "")).headD "")
        with _ | ni
    · simp
    · by_cases h2 : jsOr intf.internal "" ∈ st.connected
      · simp [h2]
      · simp [h2]

theorem foldIntf_unconnected : ∀ (l : List IntfRec) (st : ConvSt),
    (l.foldl stepIntf st).unconnected
      = st.unconnected ++ l.flatMap (fun i => (intfEntry st.nodes st.connected i).toList) := by
  intro l
  induction l with
  | nil => intro st; simp
  | cons a l ih =>
    intro st
    rw [List.foldl_cons, ih, stepIntf_unconnected]
    have h2 : ∀ i, intfEntry (stepIntf st a).nodes (stepIntf st a).connected i
        = intfEntry st.nodes st.connected i := by
      intro i
      rw [stepIntf_connected]
      exact intfEntry_congr (stepIntf_nodeIds st a) _ _
    simp only [h2, List.flatMap_cons, List.append_assoc]

/-- A port id is marked connected exactly when some connection with both
module segments non-empty and resolvable derives it as an endpoint id. -/
def specConnected (d : QsysDoc) (pid : String) : Prop :=
  ∃ c ∈ d.connections, connResolves (st0 d).nodes c
    ∧ (pid = srcIdOf c ∨ pid = tgtIdOf c)

/-- No connection of the document derives this port id as an endpoint. -/
def neverRefd (d : QsysDoc) (pid : String) : Prop :=
  ∀ c ∈ d.connections, srcIdOf c ≠ pid ∧ tgtIdOf c ≠ pid

theorem stConn_connected_iff (d : QsysDoc) (pid : String) :
    pid ∈ (stConn d).connected ↔ specConnected d pid := by
  rw [stConn, foldConn_connected]
  have h0 : (st0 d).connected = [] := rfl
  rw [h0]
  simp only [List.not_mem_nil, or_false]
  constructor
  · rintro ⟨ic, hmem, h⟩
    exact ⟨ic.2, mem_of_mem_enum hmem, h⟩
  · rintro ⟨c, hmem, h⟩
    obtain ⟨j, hj⟩ := List.getElem?_of_mem hmem
    exact ⟨(j, c), List.mk_mem_enum_iff_getElem?.mpr hj, h⟩

theorem neverRefd_not_connected (d : QsysDoc) (pid : String) (h : neverRefd d pid) :
    pid ∉ (stConn d).connected := by
  rw [stConn_connected_iff]
  rintro ⟨c, hmem, -, hor | hor⟩
  · exact (h c hmem).1 hor.symm
  · exact (h c hmem).2 hor.symm

theorem unconnectedOf_eq (d : QsysDoc) :
    unconnectedOf d = d.interfaces.flatMap
      (fun i => (intfEntry (stConn d).nodes (stConn d).connected i).toList) := by
  rw [unconnectedOf, stIntf, foldIntf_unconnected]
  have h0 : (stConn d).unconnected = [] := by
    rw [stConn, foldConn_unconnected]
    rfl
  rw [h0, List.nil_append]

/-- The entry an unconnected declared interface contributes to the
aggregator grouping. -/
def mkUEntry (intf : IntfRec) : UPort :=
  { portId := jsOr intf.internal ""
    label := jsStr (jsSplitDot (jsOr intf.internal ""))[1]?
    kind := normalizeType intf.type
    color := getKindColor (normalizeType intf.type)
    dir := jsOr intf.dir "end" }

/-- The two aggregator groups of the finished interface pass. -/
def externalInputsOf (d : QsysDoc) : List UPort := aggInputs (stIntf d)

def externalOutputsOf (d : QsysDoc) : List UPort := aggOutputs (stIntf d)

theorem intfEntry_none_of_connected (ns : List ElkNode) (conn : List String)
    (intf : IntfRec) (h : jsOr intf.internal "" ∈ conn) :
    intfEntry ns conn intf = none := by
  rw [intfEntry]
  split
  · rfl
  · split <;> first | rfl | rw [if_pos h]

theorem buildAggregates_eq (st : ConvSt) (hne : st.unconnected ≠ []) :
    buildAggregates st =
      ((if (aggInputs st).length > 0 then
          [{ makeExternalNode "__external_input__" "External Inputs" (aggInputs st).length
              with ports := (aggInputs st).map mkExtInPort }] else [])
        ++ (if (aggOutputs st).length > 0 then
          [{ makeExternalNode "__external_output__" "External Outputs" (aggOutputs st).length
              with ports := (aggOutputs st).map mkExtOutPort }] else []),
       (aggInputs st).enum.map mkExtInEdge ++ (aggOutputs st).enum.map mkExtOutEdge) := by
  rw [buildAggregates, if_neg]
  rw [List.isEmpty_iff]
  exact hne

/-- Finalizing heights keeps each node's identity and ports. -/
theorem mem_finalizeHeights_of_mem {n : ElkNode} {ns : List ElkNode} (h : n ∈ ns) :
    ∃ m ∈ finalizeHeights ns, m.id = n.id ∧ m.ports = n.ports :=
  ⟨_, List.mem_map_of_mem _ h, rfl, rfl⟩

set_option maxHeartbeats 2000000 in
/-- **C8** (confirmed): external aggregation.  (1) Every declared interface
whose reference parses (non-empty module and interface segments), whose
module resolves, and which no connection ever references, lands in the
unconnected list and in exactly one aggregator group — the output group
iff its direction is `"start"`.  (2,3) For each non-empty group exactly
one aggregator node exists, carrying one port per member (EAST for the
input aggregator, WEST for the output one) and one "external"-labelled
edge joining the aggregator port to the real port.  (4) The child count
is the module count plus one per non-empty group, so no aggregator is
created from an empty group.  (5) If every declared interface is
referenced by a resolving connection, no aggregator is created at all. -/
theorem c8_external_aggregation (d : QsysDoc) :
    (∀ intf ∈ d.interfaces,
      (jsSplitDot (jsOr intf.internal "")).headD "" ≠ "" →
      jsFalsy (jsSplitDot (jsOr intf.internal ""))[1]? = false →
      lastIdxOf (st0 d).nodes ((jsSplitDot (jsOr intf.internal "")).headD "") ≠ none →
      neverRefd d (jsOr intf.internal "") →
      mkUEntry intf ∈ unconnectedOf d
      ∧ (jsOr intf.dir "end" = "start" →
          mkUEntry intf ∈ externalOutputsOf d ∧ mkUEntry intf ∉ externalInputsOf d)
      ∧ (jsOr intf.dir "end" ≠ "start" →
          mkUEntry intf ∈ externalInputsOf d ∧ mkUEntry intf ∉ externalOutputsOf d))
    ∧ (externalInputsOf d ≠ [] →
      ∃ n ∈ (convertQsysToElk d).children, n.id = "__external_input__"
        ∧ n.ports = (externalInputsOf d).map mkExtInPort
        ∧ (∀ p ∈ n.ports, p.side = some "EAST")
        ∧ ∀ u ∈ externalInputsOf d, ∃ e ∈ (convertQsysToElk d).edges,
            e.labels = ["external"] ∧ e.sources = ["__external_input__." ++ u.portId]
            ∧ e.targets = [u.portId])
    ∧ (externalOutputsOf d ≠ [] →
      ∃ n ∈ (convertQsysToElk d).children, n.id = "__external_output__"
        ∧ n.ports = (externalOutputsOf d).map mkExtOutPort
        ∧ (∀ p ∈ n.ports, p.side = some "WEST")
        ∧ ∀ u ∈ externalOutputsOf d, ∃ e ∈ (convertQsysToElk d).edges,
            e.labels = ["external"] ∧ e.sources = [u.portId]
            ∧ e.targets = ["__external_output__." ++ u.portId])
    ∧ ((convertQsysToElk d).children.length = d.modules.length
        + (if externalInputsOf d = [] then 0 else 1)
        + (if externalOutputsOf d = [] then 0 else 1))
    ∧ ((∀ intf ∈ d.interfaces, specConnected d (jsOr intf.internal "")) →
        (convertQsysToElk d).children.length = d.modules.length) := by
  have hids : nodeIds (st0 d).nodes = nodeIds (stConn d).nodes :=
    nodeIds_eq_of_extends (foldl_extends _ (stepConn_extends (ityMapOf d)) _ _)
  have hch : (convertQsysToElk d).children
      = finalizeHeights ((stIntf d).nodes ++ (buildAggregates (stIntf d)).1) := rfl
  have hed : (convertQsysToElk d).edges
      = (stIntf d).edges ++ (buildAggregates (stIntf d)).2 := rfl
  have hmlen : (stIntf d).nodes.length = d.modules.length := by
    have e1 : nodeIds (st0 d).nodes = nodeIds (stIntf d).nodes :=
      nodeIds_eq_of_extends (portsExtend_trans
        (foldl_extends _ (stepConn_extends (ityMapOf d)) _ _)
        (foldl_extends _ stepIntf_extends _ _))
    have e2 := congrArg List.length e1
    simp only [nodeIds, List.length_map] at e2
    rw [← e2]
    exact (List.length_map _ _)
  have hUins : externalInputsOf d = (unconnectedOf d).filter (fun u => u.dir ≠ "start") := rfl
  have hUouts : externalOutputsOf d = (unconnectedOf d).filter (fun u => u.dir = "start") := rfl
  refine ⟨?_, ?_, ?_, ?_, ?_⟩
  · -- (1) classification
    intro intf hmem h1 h2 h3 h4
    have hlast : lastIdxOf (stConn d).nodes
          ((jsSplitDot (jsOr intf.internal "")).headD "")
        = lastIdxOf (st0 d).nodes ((jsSplitDot (jsOr intf.internal "")).headD "") :=
      lastIdxOf_congr _ _ hids.symm _
    have hnc : jsOr intf.internal "" ∉ (stConn d).connected :=
      neverRefd_not_connected d _ h4
    have hentry : intfEntry (stConn d).nodes (stConn d).connected intf
        = some (mkUEntry intf) := by
      rw [intfEntry, if_neg (by rw [not_or]; exact ⟨h1, by rw [h2]; simp⟩)]
      rcases hl : lastIdxOf (stConn d).nodes
          ((jsSplitDot (jsOr intf.internal "")).headD "") with _ | j
      · rw [hlast] at hl
        exact absurd hl h3
      · rw [if_neg hnc]
        rfl
    have hU : mkUEntry intf ∈ unconnectedOf d := by
      rw [unconnectedOf_eq]
      refine List.mem_flatMap.mpr ⟨intf, hmem, ?_⟩
      rw [hentry]
      exact List.mem_singleton_self _
    refine ⟨hU, fun hd => ⟨?_, ?_⟩, fun hd => ⟨?_, ?_⟩⟩
    · rw [hUouts]
      exact List.mem_filter.mpr ⟨hU, by simp [mkUEntry, hd]⟩
    · rw [hUins]
      intro hmemf
      have hpred := (List.mem_filter.mp hmemf).2
      simp [mkUEntry, hd] at hpred
    · rw [hUins]
      exact List.mem_filter.mpr ⟨hU, by simp [mkUEntry, hd]⟩
    · rw [hUouts]
      intro hmemf
      have hpred := (List.mem_filter.mp hmemf).2
      simp [mkUEntry, hd] at hpred
  · -- (2) input aggregator
    intro hne
    have hlen : (aggInputs (stIntf d)).length > 0 := List.length_pos.mpr hne
    have hun : (stIntf d).unconnected ≠ [] := by
      intro h0
      apply hne
      rw [externalInputsOf, aggInputs, h0]
      rfl
    have hb := buildAggregates_eq (stIntf d) hun
    have hpre : ({ makeExternalNode "__external_input__" "External Inputs"
          (aggInputs (stIntf d)).length
        with ports := (aggInputs (stIntf d)).map mkExtInPort } : ElkNode)
        ∈ (stIntf d).nodes ++ (buildAggregates (stIntf d)).1 := by
      rw [hb]
      dsimp only
      rw [if_pos hlen]
      exact List.mem_append_right _
        (List.mem_append_left _ (List.mem_singleton_self _))
    obtain ⟨m, hm, hid, hports⟩ := mem_finalizeHeights_of_mem hpre
    refine ⟨m, by rw [hch]; exact hm, by rw [hid]; rfl, by rw [hports]; rfl, ?_, ?_⟩
    · intro p hp
      rw [hports] at hp
      obtain ⟨u, -, rfl⟩ := List.mem_map.mp hp
      rfl
    · intro u hu
      obtain ⟨j, hj⟩ := List.getElem?_of_mem hu
      refine ⟨mkExtInEdge (j, u), ?_, rfl, rfl, rfl⟩
      rw [hed, hb]
      dsimp only
      refine List.mem_append_right _ (List.mem_append_left _ ?_)
      exact List.mem_map_of_mem _ (List.mk_mem_enum_iff_getElem?.mpr hj)
  · -- (3) output aggregator
    intro hne
    have hlen : (aggOutputs (stIntf d)).length > 0 := List.length_pos.mpr hne
    have hun : (stIntf d).unconnected ≠ [] := by
      intro h0
      apply hne
      rw [externalOutputsOf, aggOutputs, h0]
      rfl
    have hb := buildAggregates_eq (stIntf d) hun
    have hpre : ({ makeExternalNode "__external_output__" "External Outputs"
          (aggOutputs (stIntf d)).length
        with ports := (aggOutputs (stIntf d)).map mkExtOutPort } : ElkNode)
        ∈ (stIntf d).nodes ++ (buildAggregates (stIntf d)).1 := by
      rw [hb]
      dsimp only
      rw [if_pos hlen]
      exact List.mem_append_right _
        (List.mem_append_right _ (List.mem_singleton_self _))
    obtain ⟨m, hm, hid, hports⟩ := mem_finalizeHeights_of_mem hpre
    refine ⟨m, by rw [hch]; exact hm, by rw [hid]; rfl, by rw [hports]; rfl, ?_, ?_⟩
    · intro p hp
      rw [hports] at hp
      obtain ⟨u, -, rfl⟩ := List.mem_map.mp hp
      rfl
    · intro u hu
      obtain ⟨j, hj⟩ := List.getElem?_of_mem hu
      refine ⟨mkExtOutEdge (j, u), ?_, rfl, rfl, rfl⟩
      rw [hed, hb]
      dsimp only
      refine List.mem_append_right _ (List.mem_append_right _ ?_)
      exact List.mem_map_of_mem _ (List.mk_mem_enum_iff_getElem?.mpr hj)
  · -- (4) child count
    rw [hch, finalizeHeights, List.length_map, List.length_append, hmlen]
    by_cases hun : (stIntf d).unconnected = []
    · have hi : externalInputsOf d = [] := by rw [externalInputsOf, aggInputs, hun]; rfl
      have ho : externalOutputsOf d = [] := by rw [externalOutputsOf, aggOutputs, hun]; rfl
      rw [buildAggregates, if_pos (by rw [List.isEmpty_iff]; exact hun)]
      rw [hi, ho]
      simp
    · rw [buildAggregates_eq (stIntf d) hun]
      dsimp only
      rw [List.length_append]
      have hi : (externalInputsOf d = []) ↔ ¬ (aggInputs (stIntf d)).length > 0 := by
        rw [externalInputsOf]
        constructor
        · intro h; rw [h]; simp
        · intro h
          rcases hcase : aggInputs (stIntf d) with _ | ⟨u, us⟩
          · rfl
          · rw [hcase] at h; simp at h
      have ho : (externalOutputsOf d = []) ↔ ¬ (aggOutputs (stIntf d)).length > 0 := by
        rw [externalOutputsOf]
        constructor
        · intro h; rw [h]; simp
        · intro h
          rcases hcase : aggOutputs (stIntf d) with _ | ⟨u, us⟩
          · rfl
          · rw [hcase] at h; simp at h
      by_cases h1 : (aggInputs (stIntf d)).length > 0 <;>
        by_cases h2 : (aggOutputs (stIntf d)).length > 0 <;>
        simp [h1, h2, hi, ho] <;> omega
  · -- (5) all connected → no aggregators
    intro hall
    have hu : unconnectedOf d = [] := by
      rw [unconnectedOf_eq]
      rw [List.flatMap_eq_nil_iff]
      intro intf hmem
      rw [intfEntry_none_of_connected]
      · rfl
      · rw [stConn_connected_iff]
        exact hall intf hmem
    rw [hch, finalizeHeights, List.length_map, List.length_append, hmlen]
    rw [buildAggregates, if_pos (by rw [List.isEmpty_iff]; exact hu)]
    rfl


/-- The C8 witness document: one module `m`, one declared interface
`m.a` with the default direction (an input), and no connections. -/
def c8doc : QsysDoc :=
  { modules := [{ name := some "m" }]
    interfaces := [{ internal := some "m.a", type := some "clock", dir := some "end" }] }

def c8intf : IntfRec := { internal := some "m.a", type := some "clock", dir := some "end" }

/-- Instantiation of `c8_external_aggregation` on `c8doc`: the lone
never-referenced interface lands in the input aggregator group and not
in the output one. -/
theorem c8_witness :
    mkUEntry c8intf ∈ externalInputsOf c8doc
      ∧ mkUEntry c8intf ∉ externalOutputsOf c8doc :=
  ((c8_external_aggregation c8doc).1 c8intf
    (by decide) (by decide) (by decide) (by decide)
    (fun c hc => absurd hc (List.not_mem_nil c))).2.2 (by decide)

end Qsys
